import Mathlib

/-!
# Verification of the scouting statistics parser and reconciliation layer

Shallow embedding of the statistics-line parsing functions of
`src/usc_kommentatoren/report.py` and of the multi-source reconciliation
of `Scouting/scripts/combined_csv.py`, together with theorems settling the
spec claims about them.

Python strings are modelled as `List Char`; Python `int` as `Int`;
fallible operations return `Option`.  Python `float` arithmetic inside
`_compute_percentage_count` / `_parse_percentage_token` is modelled
exactly over `ℚ` (the decimal strings fed to `float()` by this code are
exact decimals, and `round` is Python's round-half-to-even).
-/

namespace Scouting

/-- Characters Python's `str.strip()` / `str.split()` treat as whitespace
(the ASCII whitespace plus the non-breaking space, which is the only
non-ASCII whitespace this pipeline encounters). -/
def isSpaceChar (c : Char) : Bool :=
  c = ' ' || c = '\t' || c = '\n' || c = '\r' || c = '\x0b' || c = '\x0c' || c = ' '

/-- `s.strip()` from the left. -/
def trimLeft (l : List Char) : List Char := l.dropWhile isSpaceChar

/-- `s.strip()` from the right. -/
def trimRight (l : List Char) : List Char := ((l.reverse).dropWhile isSpaceChar).reverse

/-- Python `str.strip()`. -/
def trimChars (l : List Char) : List Char := trimRight (trimLeft l)

/-- Python `str.split()` (split on whitespace runs, dropping empties):
worker with an accumulator of the current word's chars in reverse. -/
def wordsAux : List Char → List Char → List (List Char)
  | [], acc => if acc = [] then [] else [acc.reverse]
  | c :: cs, acc =>
    if isSpaceChar c then
      if acc = [] then wordsAux cs [] else acc.reverse :: wordsAux cs []
    else wordsAux cs (c :: acc)

/-- Python `str.split()` with no argument. -/
def words (l : List Char) : List (List Char) := wordsAux l []

/-- convenience: string literal to char list. -/
def s2l (s : String) : List Char := s.data

/-- Python `str.lower()` (ASCII case mapping; the sentinel and header
labels compared by this code are ASCII apart from umlauts, which
`Char.toLower` maps correctly as well). -/
def lowerChars (l : List Char) : List Char := l.map Char.toLower

/-- decimal digit test (regex `\d` / Python `str.isdigit` on the ASCII
digits, the only digits this pipeline sees). -/
def isDigitC (c : Char) : Bool := 48 ≤ c.toNat ∧ c.toNat ≤ 57

/-- digit value of a decimal digit character. -/
def digitVal (c : Char) : Nat := c.toNat - 48

/-- decimal digit character for `d < 10`. -/
def digitChar (d : Nat) : Char := Char.ofNat (48 + d)

/-- value of a string of decimal digits (Python `int` on a digit string;
also the value `0` for the empty string, matching
`int(first_digits) if first_digits else 0` in `_split_compound_value`). -/
def decToNat (l : List Char) : Nat := l.foldl (fun a c => a * 10 + digitVal c) 0

/-- decimal rendering of a natural number (Python `str`/f-string of an int). -/
def natDigits (n : Nat) : List Char :=
  if h : n < 10 then [digitChar n]
  else natDigits (n / 10) ++ [digitChar (n % 10)]
decreasing_by exact Nat.div_lt_self (Nat.lt_of_lt_of_le (by omega) (Nat.le_of_not_lt h)) (by omega)

/-- decimal rendering of an integer. -/
def intDigits (i : Int) : List Char :=
  if i < 0 then '-' :: natDigits i.natAbs else natDigits i.natAbs

/-- Python `int(s)` on an already-stripped string: optional sign, one or
more decimal digits, nothing else (underscore digit grouping is not used
by this pipeline and is not modelled). -/
def pyIntOpt (l : List Char) : Option Int :=
  let sign : Int := if l.headD ' ' = '-' then -1 else 1
  let rest : List Char := if l.headD ' ' = '+' ∨ l.headD ' ' = '-' then l.tail else l
  let ds := rest.takeWhile isDigitC
  if ds = [] then none
  else if rest.dropWhile isDigitC = [] then some (sign * (decToNat ds : Int))
  else none

/-- Python `float(s)` on an already-stripped decimal string, modelled
exactly over `ℚ`: optional sign, digits with at most one decimal point,
at least one digit overall (exponent / `inf` / `nan` forms never reach
this code and are not modelled). -/
def parseFloat (l : List Char) : Option ℚ :=
  let sign : ℚ := if l.headD ' ' = '-' then -1 else 1
  let rest : List Char := if l.headD ' ' = '+' ∨ l.headD ' ' = '-' then l.tail else l
  let intPart := rest.takeWhile isDigitC
  let rest2 := rest.dropWhile isDigitC
  if rest2 = [] then if intPart = [] then none else some (sign * (decToNat intPart : ℚ))
  else if rest2.headD ' ' = '.' then
    let frac := rest2.tail
    let fracDigits := frac.takeWhile isDigitC
    if frac.dropWhile isDigitC = [] then
      if intPart = [] ∧ fracDigits = [] then none
      else some (sign * ((decToNat intPart : ℚ) +
        (decToNat fracDigits : ℚ) / ((10 : ℚ) ^ fracDigits.length)))
    else none
  else none

/-- Python `round` on a number, modelled over `ℚ`: round half to even. -/
def pyRound (q : ℚ) : ℤ :=
  let f := ⌊q⌋
  let r := q - (f : ℚ)
  if r < 1/2 then f
  else if (1:ℚ)/2 < r then f + 1
  else if f % 2 = 0 then f else f + 1

/-- The non-breaking space character. -/
def nbsp : Char := ' '

/-- `_parse_int_token`: strip, drop non-breaking spaces, map dash
placeholders to `0`, remove thousands separators `.`/`,`, then `int()`
with `ValueError` mapped to `0`. -/
def parseIntToken (token : List Char) : Int :=
  let stripped := (trimChars token).filter (fun c => c ≠ nbsp)
  if stripped = [] ∨ stripped = ['-'] ∨ stripped = ['–'] then 0
  else
    let cleaned := stripped.filter (fun c => c ≠ '.' ∧ c ≠ ',')
    (pyIntOpt cleaned).getD 0

/-- `_parse_optional_int_token`: as `_parse_int_token` but `None` for
blank/dash/unparseable tokens. -/
def parseOptionalIntToken (token : List Char) : Option Int :=
  let stripped := (trimChars token).filter (fun c => c ≠ nbsp)
  if stripped = [] ∨ stripped = ['-'] ∨ stripped = ['–'] then none
  else pyIntOpt (stripped.filter (fun c => c ≠ '.' ∧ c ≠ ','))

/-- `_parse_percentage_token`: normalise a percentage token to the
canonical `"<integer>%"` form (blank/dash/unparseable ↦ `"0%"`). -/
def parsePercentageToken (token : List Char) : List Char :=
  let stripped := (trimChars token).filter (fun c => c ≠ nbsp)
  if stripped = [] ∨ stripped = ['-'] ∨ stripped = ['–'] then s2l "0%"
  else
    let normalized := (stripped.filter (fun c => c ≠ '%')).map
      (fun c => if c = ',' then '.' else c)
    match parseFloat normalized with
    | none => s2l "0%"
    | some v => intDigits (pyRound v) ++ ['%']

/-- `_compute_percentage_count`: derived count
`round(attempts * pct / 100)`, `0` for non-positive attempts or a
blank/unparseable percentage string. -/
def computePercentageCount (attempts : Int) (pct : List Char) : Int :=
  if attempts ≤ 0 then 0
  else
    let cleaned := trimChars pct
    if cleaned = [] then 0
    else
      let numeric := (cleaned.filter (fun c => c ≠ '%')).map
        (fun c => if c = ',' then '.' else c)
      match parseFloat numeric with
      | none => 0
      | some v => pyRound ((attempts : ℚ) * (v / 100))

/-- sanitisation step of `_tokenize_compact_stats_text`: non-breaking
space and `·` become spaces, the Unicode minus becomes `-`, parentheses
become spaces (the source collapses runs of parentheses into one space
with a regex, which yields the same token list after splitting). -/
def sanitizeChar (c : Char) : Char :=
  if c = nbsp ∨ c = '·' then ' '
  else if c = '−' then '-'
  else if c = '(' ∨ c = ')' then ' '
  else c

/-- `_tokenize_compact_stats_text`: sanitise, split on whitespace, drop
bare `*` placeholder tokens. -/
def tokenizeCompactStatsText (text : List Char) : List (List Char) :=
  (words (text.map sanitizeChar)).filter (fun p => p ≠ ['*'])

/-- full match of `_COMPACT_VALUE_PATTERN`
(`^(?:[+\-−]?\d+(?:[.,]\d+)?%?|\.)$`). -/
def isCompactValue (t : List Char) : Bool :=
  if t = ['.'] then true
  else
    let t1 : List Char := match t with
      | c :: cs => if c = '+' ∨ c = '-' ∨ c = '−' then cs else t
      | [] => t
    let ds := t1.takeWhile isDigitC
    let r1 := t1.dropWhile isDigitC
    if ds = [] then false
    else
      match r1 with
      | [] => true
      | c :: cs =>
        if c = '%' then cs = []
        else if c = '.' ∨ c = ',' then
          let ds2 := cs.takeWhile isDigitC
          if ds2 = [] then false
          else
            match cs.dropWhile isDigitC with
            | [] => true
            | c2 :: cs2 => c2 = '%' ∧ cs2 = []
        else false

/-- the backward token walk of `_extract_compact_value_tokens`, applied
to the reversed part list; accepted (stripped) tokens are prepended, so
the accumulator is in original text order, exactly like the source's
`values` list after its final `reverse()`. -/
def collectCompact : List (List Char) → List (List Char) → Nat → List (List Char) × Nat
  | [], values, consumed => (values, consumed)
  | t :: rest, values, consumed =>
    if t = [] then collectCompact rest values consumed
    else
      let n := trimChars t
      if isCompactValue n then
        let values' := n :: values
        if values'.length = 16 then (values', consumed + 1)
        else collectCompact rest values' (consumed + 1)
      else if values = [] then collectCompact rest values consumed
      else (values, consumed)

/-- `_extract_compact_value_tokens`: walk the parts backwards collecting
up to 16 trailing value tokens; `None` when none are found, otherwise the
token list padded with `"."` to length 16 plus the consumed count. -/
def extractCompactValueTokens (parts : List (List Char)) :
    Option (List (List Char) × Nat) :=
  let vc := collectCompact parts.reverse [] 0
  if vc.1 = [] then none
  else some (vc.1 ++ List.replicate (16 - vc.1.length) ['.'], vc.2)

/-- `MatchStatsMetrics` (frozen dataclass of `report.py`). -/
structure MatchStatsMetrics where
  serves_attempts : Int
  serves_errors : Int
  serves_points : Int
  receptions_attempts : Int
  receptions_errors : Int
  receptions_positive_pct : List Char
  receptions_perfect_pct : List Char
  attacks_attempts : Int
  attacks_errors : Int
  attacks_blocked : Int
  attacks_points : Int
  attacks_success_pct : List Char
  blocks_points : Int
  receptions_positive : Int := 0
  receptions_perfect : Int := 0
deriving Repr, DecidableEq

/-- `MatchPlayerStats` (frozen dataclass of `report.py`). -/
structure MatchPlayerStats where
  team_name : List Char
  player_name : List Char
  jersey_number : Option Int
  metrics : MatchStatsMetrics
  total_points : Option Int := none
  break_points : Option Int := none
  plus_minus : Option Int := none
deriving Repr, DecidableEq

/-- `_build_metrics_from_compact_tokens`: positional mapping of the
16-token array onto the metric fields (the callers always supply exactly
16 tokens; out-of-range access, impossible there, defaults to the empty
token). -/
def buildMetricsFromCompactTokens (tokens : List (List Char)) : MatchStatsMetrics :=
  let receptions_attempts := parseIntToken (tokens.getD 6 [])
  let receptions_positive_pct := parsePercentageToken (tokens.getD 8 [])
  let receptions_perfect_pct := parsePercentageToken (tokens.getD 9 [])
  { serves_attempts := parseIntToken (tokens.getD 3 [])
    serves_errors := parseIntToken (tokens.getD 4 [])
    serves_points := parseIntToken (tokens.getD 5 [])
    receptions_attempts := receptions_attempts
    receptions_errors := parseIntToken (tokens.getD 7 [])
    receptions_positive_pct := receptions_positive_pct
    receptions_perfect_pct := receptions_perfect_pct
    receptions_positive := computePercentageCount receptions_attempts receptions_positive_pct
    receptions_perfect := computePercentageCount receptions_attempts receptions_perfect_pct
    attacks_attempts := parseIntToken (tokens.getD 10 [])
    attacks_errors := parseIntToken (tokens.getD 11 [])
    attacks_blocked := parseIntToken (tokens.getD 12 [])
    attacks_points := parseIntToken (tokens.getD 13 [])
    attacks_success_pct := parsePercentageToken (tokens.getD 14 [])
    blocks_points := parseIntToken (tokens.getD 15 []) }

/-- `" ".join(parts)`. -/
def joinSpace : List (List Char) → List Char
  | [] => []
  | [x] => x
  | x :: xs => x ++ ' ' :: joinSpace xs

/-- the characters stripped by `.strip(" .:-")` in the name cleanup. -/
def isNameStripChar (c : Char) : Bool := c = ' ' ∨ c = '.' ∨ c = ':' ∨ c = '-'

/-- `.strip(" .:-")`. -/
def stripNamePunct (l : List Char) : List Char :=
  ((l.dropWhile isNameStripChar).reverse.dropWhile isNameStripChar).reverse

/-- `re.search(r"\s[.\d+-]", s)`: index of the first whitespace character
followed by `.`, a digit, `+` or `-`. -/
def cutoffIndex : List Char → Option Nat
  | c1 :: c2 :: rest =>
    if isSpaceChar c1 ∧ (c2 = '.' ∨ isDigitC c2 ∨ c2 = '+' ∨ c2 = '-') then some 0
    else (cutoffIndex (c2 :: rest)).map (· + 1)
  | _ => none

/-- `_parse_compact_player_stats`, parameterised by the name
canonicalisation `pn` (the source's `pretty_name`, a lookup into static
club-name tables that no claim depends on and that is therefore kept
abstract). -/
def parseCompactPlayerStats (pn : List Char → List Char) (rest teamName : List Char)
    (jerseyNumber : Option Int) : Option MatchPlayerStats :=
  let parts := tokenizeCompactStatsText rest
  match extractCompactValueTokens parts with
  | none => none
  | some (valueTokens, consumedCount) =>
    let metrics := buildMetricsFromCompactTokens valueTokens
    let prefixLength := parts.length - consumedCount
    let nameTokens := parts.take prefixLength
    if nameTokens = [] then none
    else
      let preStr := trimChars (joinSpace nameTokens)
      let nameSegment :=
        match cutoffIndex preStr with
        | some i => stripNamePunct (preStr.take i)
        | none => stripNamePunct preStr
      if nameSegment = [] then none
      else
        let cleanedParts := (words nameSegment).filter
          (fun part => ¬ (part.length = 1 ∧ part.all (fun c => c.isAlpha ∧ c.isUpper)))
        let nameSegment2 := if cleanedParts ≠ [] then joinSpace cleanedParts else nameSegment
        some { team_name := teamName
               player_name := pn nameSegment2
               jersey_number := jerseyNumber
               metrics := metrics
               total_points := some (parseIntToken (valueTokens.getD 0 []))
               break_points := some (parseIntToken (valueTokens.getD 1 []))
               plus_minus := some (parseIntToken (valueTokens.getD 2 [])) }

/-- one match attempt of `_PLAYER_VALUE_PATTERN`
(`-?\d{1,4}(?:[.,]\d+)?%?|-`) at the head of the input: the left
alternative (optional sign, one to four digits taken greedily, optional
decimal group, optional percent) is preferred, a lone `-` matches the
right alternative. -/
def tryMatchPlayerValue (l : List Char) : Option (List Char) :=
  let sgnRest : List Char × List Char :=
    match l with
    | '-' :: cs => (['-'], cs)
    | cs => ([], cs)
  let ds := (sgnRest.2.takeWhile isDigitC).take 4
  if ds = [] then
    match l with
    | '-' :: _ => some ['-']
    | _ => none
  else
    let rest2 := sgnRest.2.drop ds.length
    let fracRest : List Char × List Char :=
      match rest2 with
      | c :: cs =>
        if c = '.' ∨ c = ',' then
          let fds := cs.takeWhile isDigitC
          if fds = [] then ([], rest2) else (c :: fds, cs.drop fds.length)
        else ([], rest2)
      | [] => ([], rest2)
    let pct : List Char := match fracRest.2 with | '%' :: _ => ['%'] | _ => []
    some (sgnRest.1 ++ ds ++ fracRest.1 ++ pct)

/-- `finditer` of `_PLAYER_VALUE_PATTERN`: scan left to right, resuming
after each (never empty) match; fuel-driven worker. -/
def scanPlayerValuesAux : Nat → List Char → Nat → List (Nat × List Char)
  | 0, _, _ => []
  | _ + 1, [], _ => []
  | fuel + 1, c :: cs, i =>
    match tryMatchPlayerValue (c :: cs) with
    | some tok => (i, tok) :: scanPlayerValuesAux fuel ((c :: cs).drop tok.length) (i + tok.length)
    | none => scanPlayerValuesAux fuel cs (i + 1)

/-- all `_PLAYER_VALUE_PATTERN` matches of a string with start indices. -/
def playerValueMatches (l : List Char) : List (Nat × List Char) :=
  scanPlayerValuesAux l.length l 0

/-- `_parse_player_stats_line` (compact attempt first, then the legacy
13-token layout), parameterised by `pretty_name` as above. -/
def parsePlayerStatsLine (pn : List Char → List Char) (line teamName : List Char) :
    Option MatchPlayerStats :=
  let cleaned := trimChars (line.map (fun c => if c = nbsp then ' ' else c))
  if cleaned = [] then none
  else if (s2l "trainer").isPrefixOf (lowerChars cleaned)
      ∨ (s2l "team").isPrefixOf (lowerChars cleaned)
      ∨ (s2l "coaches").isPrefixOf (lowerChars cleaned) then none
  else
    let jerseyDigits := (cleaned.takeWhile isDigitC).take 3
    let jerseyNumber : Option Int :=
      if jerseyDigits = [] then none else some (decToNat jerseyDigits : Int)
    let rest := if jerseyDigits = [] then cleaned
      else trimChars (cleaned.drop jerseyDigits.length)
    if rest = [] then none
    else
      match parseCompactPlayerStats pn rest teamName jerseyNumber with
      | some p => some p
      | none =>
        let valueMatches := playerValueMatches rest
        if valueMatches.length < 13 then none
        else
          let firstStart := (valueMatches.headD (0, [])).1
          let nameSegment := stripNamePunct (rest.take firstStart)
          if nameSegment = [] then none
          else
            let numericTokens := valueMatches.map (fun m => m.2)
            let mt := numericTokens.take 13
            let receptions_attempts := parseIntToken (mt.getD 3 [])
            let receptions_positive_pct := parsePercentageToken (mt.getD 5 [])
            let receptions_perfect_pct := parsePercentageToken (mt.getD 6 [])
            let metrics : MatchStatsMetrics :=
              { serves_attempts := parseIntToken (mt.getD 0 [])
                serves_errors := parseIntToken (mt.getD 1 [])
                serves_points := parseIntToken (mt.getD 2 [])
                receptions_attempts := receptions_attempts
                receptions_errors := parseIntToken (mt.getD 4 [])
                receptions_positive_pct := receptions_positive_pct
                receptions_perfect_pct := receptions_perfect_pct
                receptions_positive :=
                  computePercentageCount receptions_attempts receptions_positive_pct
                receptions_perfect :=
                  computePercentageCount receptions_attempts receptions_perfect_pct
                attacks_attempts := parseIntToken (mt.getD 7 [])
                attacks_errors := parseIntToken (mt.getD 8 [])
                attacks_blocked := parseIntToken (mt.getD 9 [])
                attacks_points := parseIntToken (mt.getD 10 [])
                attacks_success_pct := parsePercentageToken (mt.getD 11 [])
                blocks_points := parseIntToken (mt.getD 12 []) }
            let extraTokens := numericTokens.drop 13
            some { team_name := teamName
                   player_name := pn nameSegment
                   jersey_number := jerseyNumber
                   metrics := metrics
                   total_points :=
                     match extraTokens with
                     | [] => none
                     | e :: _ => parseOptionalIntToken e
                   break_points :=
                     if 1 < extraTokens.length then parseOptionalIntToken (extraTokens.getD 1 [])
                     else none
                   plus_minus :=
                     if 2 < extraTokens.length then parseOptionalIntToken (extraTokens.getD 2 [])
                     else none }

/-- worker for `collapseWs`: the flag records whether the previous
character was whitespace (in which case further whitespace is dropped). -/
def collapseWsAux : Bool → List Char → List Char
  | _, [] => []
  | prevSpace, c :: cs =>
    if isSpaceChar c then
      if prevSpace then collapseWsAux true cs else ' ' :: collapseWsAux true cs
    else c :: collapseWsAux false cs

/-- `re.sub(r"\s+", " ", s)`: collapse whitespace runs to single spaces. -/
def collapseWs (l : List Char) : List Char := collapseWsAux false l

/-- the local `try_parse` of `_parse_team_player_lines`. -/
def tryParsePlayerText (pn : List Char → List Char) (teamName text : List Char) :
    Option MatchPlayerStats :=
  let normalized := collapseWs (trimChars text)
  if normalized = [] then none
  else parsePlayerStatsLine pn normalized teamName

/-- Python `\w` (word character; ASCII approximation, all header lines
this guards against are ASCII). -/
def isWordChar (c : Char) : Bool := c.isAlphanum ∨ c = '_'

/-- `re.match(r"(?i)^nr\b", s)`: case-insensitive `nr` prefix at a word
boundary. -/
def nrHeaderMatch (l : List Char) : Bool :=
  match l with
  | c1 :: c2 :: rest =>
    Char.toLower c1 = 'n' && Char.toLower c2 = 'r' &&
      (match rest with | [] => true | c3 :: _ => ¬ isWordChar c3)
  | _ => false

/-- substring containment (Python `in` on strings). -/
def containsSub (pat l : List Char) : Bool :=
  l.tails.any (fun t => pat.isPrefixOf t)

/-- the line loop of `_parse_team_player_lines`: accumulated players and
the pending (buffered) fragment are threaded explicitly. -/
def parseTeamPlayerLinesAux (pn : List Char → List Char) (teamName : List Char) :
    List (List Char) → List MatchPlayerStats → Option (List Char) → List MatchPlayerStats
  | [], players, pending =>
    (match pending with
     | none => players
     | some p =>
       match tryParsePlayerText pn teamName p with
       | some parsed => players ++ [parsed]
       | none => players)
  | rawLine :: restLines, players, pending =>
    let stripped := trimChars rawLine
    if stripped = [] then parseTeamPlayerLinesAux pn teamName restLines players pending
    else
      let lowered := lowerChars stripped
      if nrHeaderMatch stripped then
        parseTeamPlayerLinesAux pn teamName restLines players none
      else if (containsSub (s2l "aufschlag") lowered ∧ containsSub (s2l "annahme") lowered)
          ∨ (containsSub (s2l "angriff") lowered ∧ containsSub (s2l "block") lowered) then
        parseTeamPlayerLinesAux pn teamName restLines players none
      else if (s2l "libero").isPrefixOf lowered then
        parseTeamPlayerLinesAux pn teamName restLines players none
      else
        match pending with
        | some p =>
          let combined := p ++ ' ' :: stripped
          (match tryParsePlayerText pn teamName combined with
           | some parsed => parseTeamPlayerLinesAux pn teamName restLines (players ++ [parsed]) none
           | none =>
             match tryParsePlayerText pn teamName stripped with
             | some parsed => parseTeamPlayerLinesAux pn teamName restLines (players ++ [parsed]) none
             | none =>
               if stripped.any isDigitC then
                 parseTeamPlayerLinesAux pn teamName restLines players (some combined)
               else
                 parseTeamPlayerLinesAux pn teamName restLines players (some stripped))
        | none =>
          match tryParsePlayerText pn teamName stripped with
          | some parsed => parseTeamPlayerLinesAux pn teamName restLines (players ++ [parsed]) none
          | none => parseTeamPlayerLinesAux pn teamName restLines players (some stripped)

/-- `_parse_team_player_lines`. -/
def parseTeamPlayerLines (pn : List Char → List Char) (lines : List (List Char))
    (teamName : List Char) : List MatchPlayerStats :=
  parseTeamPlayerLinesAux pn teamName lines [] none

/-- the two halves of a glued digit string when the split point is `k`
digits from the right (`digits[:-k]` / `digits[-k:]`; an empty first
half has value `0` as in the source). -/
def splitHalves (digits : List Char) (k : Nat) : Int × Int :=
  ((decToNat (digits.take (digits.length - k)) : Int),
   (decToNat (digits.drop (digits.length - k)) : Int))

/-- the split-position loop of `_split_compound_value`: try `k`,
`k + 1`, … for `fuel` iterations, returning the first split whose halves
are within the bounds. -/
def splitSearch (digits : List Char) (firstMax secondMax : Int) :
    Nat → Nat → Option (Int × Int)
  | _, 0 => none
  | k, fuel + 1 =>
    let h := splitHalves digits k
    if h.1 ≤ firstMax ∧ h.2 ≤ secondMax then some h
    else splitSearch digits firstMax secondMax (k + 1) fuel

/-- `_split_compound_value`: keep only digits, then try split points 1 to
`min 3 (number of digits)` from the right, first in-bounds split wins. -/
def splitCompoundValue (value : List Char) (firstMax secondMax : Int) :
    Option (Int × Int) :=
  let digits := value.filter isDigitC
  if digits = [] then none
  else splitSearch digits firstMax secondMax 1 (min 3 digits.length)

/-- the token-repair step of the fallback branch of
`_parse_match_stats_metrics`: a `+`-token whose one-digit suffix got
separated from the following digit run is re-joined and the following
token removed. -/
def fixFallbackTokens (tokens : List (List Char)) : List (List Char) :=
  if 13 < tokens.length ∧ (tokens.getD 1 []).contains '+' then
    let t1 := tokens.getD 1 []
    let suffix := ((t1.dropWhile (fun c => c ≠ '+')).drop 1)
    let t2 := tokens.getD 2 []
    if suffix ≠ [] ∧ suffix.all isDigitC ∧ suffix.length = 1
        ∧ t2 ≠ [] ∧ t2.all isDigitC then
      tokens.take 1 ++ [t1 ++ t2] ++ tokens.drop 3
    else tokens
  else tokens

/-- the fallback branch of `_parse_match_stats_metrics` (its lines after
`tokens = re.findall(...)`), taking the found token list as input: token
repair, shape guard, glued-value splits with the serve 60/60 and attack
40/150 bounds, then field construction with `int()` failures
(`ValueError`) mapped to `None`. -/
def matchStatsFromFallbackTokens (tokens0 : List (List Char)) :
    Option MatchStatsMetrics :=
  let tokens := fixFallbackTokens tokens0
  if tokens.length < 13 ∨ ¬ (tokens.getD 1 []).contains '+' then none
  else
    match splitCompoundValue (tokens.getD 3 []) 60 60,
          splitCompoundValue (tokens.getD 10 []) 40 150 with
    | some serveSplit, some attackSplit =>
      (match pyIntOpt (tokens.getD 2 []), pyIntOpt (tokens.getD 4 []),
             pyIntOpt (tokens.getD 5 []), pyIntOpt (tokens.getD 8 []),
             pyIntOpt (tokens.getD 9 []), pyIntOpt (tokens.getD 12 []) with
       | some sa, some ra, some rerr, some aa, some aerr, some bp =>
         let posPct := tokens.getD 6 []
         let perfPct := tokens.getD 7 []
         some { serves_attempts := sa
                serves_errors := serveSplit.1
                serves_points := serveSplit.2
                receptions_attempts := ra
                receptions_errors := rerr
                receptions_positive_pct := posPct
                receptions_perfect_pct := perfPct
                receptions_positive := computePercentageCount ra posPct
                receptions_perfect := computePercentageCount ra perfPct
                attacks_attempts := aa
                attacks_errors := aerr
                attacks_blocked := attackSplit.1
                attacks_points := attackSplit.2
                attacks_success_pct := tokens.getD 11 []
                blocks_points := bp }
       | _, _, _, _, _, _ => none)
    | _, _ => none

/-- the sentinel test of `_parse_stats_totals_pdf`
(`line.strip() == "Spieler insgesamt"`). -/
def isStatsTotalsMarker (line : List Char) : Bool :=
  trimChars line = s2l "Spieler insgesamt"

/-- the sentinel line indices (`markers`) of `_parse_stats_totals_pdf`. -/
def statsMarkerIndices (lines : List (List Char)) : List Nat :=
  ((List.range lines.length).filter
    (fun idx => isStatsTotalsMarker (lines.getD idx [])))

/-- split on a character (Python `str.split("/")`; empty pieces kept). -/
def splitOnCharAux (sep : Char) : List Char → List Char → List (List Char)
  | [], acc => [acc.reverse]
  | c :: cs, acc =>
    if c = sep then acc.reverse :: splitOnCharAux sep cs []
    else splitOnCharAux sep cs (c :: acc)

/-- Python `str.split(sep)`. -/
def splitOnChar (sep : Char) (l : List Char) : List (List Char) :=
  splitOnCharAux sep l []

/-- Modelled from the spec (claim C2's description of the sentinel): a
line is a sentinel when, after trimming, it equals — case-insensitively —
`"Spieler insgesamt"` or one of the variants `"Spieler gesamt"`,
`"Players total"`, `"Players Total"`, either as the whole line or as a
trimmed half of a slash-joined bilingual label. -/
def sentinelSpec (line : List Char) : Bool :=
  let variants : List (List Char) :=
    [s2l "spieler insgesamt", s2l "spieler gesamt", s2l "players total"]
  let t := trimChars line
  let halves := t :: (splitOnChar '/' t).map trimChars
  halves.any (fun h => variants.contains (lowerChars h))

/-! ## Reconciliation layer (`Scouting/scripts/combined_csv.py`)

Rows and incoming records are dictionaries from column name to an
optional string value, modelled as insertion-ordered association lists
(Python dicts preserve insertion order; updating an existing key keeps
its position, a new key is appended). -/

/-- dict lookup. -/
def alGet {κ α : Type} [DecidableEq κ] (l : List (κ × α)) (k : κ) : Option α :=
  (l.find? (fun p => decide (p.1 = k))).map (fun p => p.2)

/-- dict update `d[k] = v` (existing key updated in place, new key
appended), Python-dict style. -/
def alSet {κ α : Type} [DecidableEq κ] (l : List (κ × α)) (k : κ) (v : α) : List (κ × α) :=
  if l.any (fun p => decide (p.1 = k)) then
    l.map (fun p => if p.1 = k then (k, v) else p)
  else l ++ [(k, v)]

/-- `FIELD_ORDER` of `combined_csv.py`. -/
def FIELD_ORDER : List String :=
  ["data_sources", "match_number", "match_id", "kickoff", "kickoff_comparison",
   "is_home", "team", "opponent", "opponent_comparison", "opponent_short",
   "host", "host_comparison", "location", "result_summary", "player_name",
   "jersey_number", "total_points", "break_points", "plus_minus",
   "serves_attempts", "serves_errors", "serves_points", "receptions_attempts",
   "receptions_errors", "receptions_positive", "receptions_perfect",
   "receptions_positive_pct", "receptions_perfect_pct", "attacks_attempts",
   "attacks_errors", "attacks_blocked", "attacks_points", "attacks_success_pct",
   "blocks_points", "stats_url", "csv_path"]

/-- `SOURCE_PRIORITY = {"pdf": 1, "csv": 2}`. -/
def SOURCE_PRIORITY : List (String × Nat) := [("pdf", 1), ("csv", 2)]

/-- `SOURCE_LABELS.get(source, source.upper())`. -/
def sourceLabel (source : String) : String :=
  if source = "pdf" then "PDF" else if source = "csv" then "CSV" else source.toUpper

/-- Python `str.lower()` on a whole string. -/
def strLower (s : String) : String := String.mk (s.data.map Char.toLower)

/-- Python `str.strip()` on a whole string. -/
def strTrim (s : String) : String := String.mk (trimChars s.data)

/-- `_RowState` of `combined_csv.py`. -/
structure RowState where
  values : List (String × Option String)
  fieldPriorities : List (String × Nat)
  dataSources : List String
  fieldValuesBySource : List (String × List (String × String))
deriving Repr, DecidableEq

/-- `_make_base_row`. -/
def makeBaseRow : List (String × Option String) :=
  (FIELD_ORDER.filter (fun f => f ≠ "data_sources")).map (fun f => (f, none))

/-- lookup of a field's current value, `None` both for a missing field
and for a field stored as `None` (Python `dict.get`). -/
def flatGet (values : List (String × Option String)) (f : String) : Option String :=
  (alGet values f).getD none

/-- the row key derived at the top of `_merge_row`:
`(match_id, match_number, kickoff_fallback, team.lower(), player_name.lower())`,
where the kickoff fallback is blanked as soon as either identifier is
present. -/
def rowKey (values : List (String × Option String)) :
    String × String × String × String × String :=
  let matchId := (flatGet values "match_id").getD ""
  let matchNumber := (flatGet values "match_number").getD ""
  let kickoffValue := (flatGet values "kickoff").getD ""
  let kickoffKey := if matchId ≠ "" ∨ matchNumber ≠ "" then "" else kickoffValue
  (matchId, matchNumber, kickoffKey,
   strLower ((flatGet values "team").getD ""),
   strLower ((flatGet values "player_name").getD ""))

/-- one iteration of the per-field loop of `_merge_row` on an existing
row state: record the raw value per source, then overwrite the stored
value when it is absent or the incoming priority is strictly higher. -/
def mergeFieldStep (priority : Nat) (source : String) (st : RowState)
    (fv : String × Option String) : RowState :=
  match fv.2 with
  | none => st
  | some v =>
    let fieldSources := (alGet st.fieldValuesBySource fv.1).getD []
    let st1 := { st with
      fieldValuesBySource := alSet st.fieldValuesBySource fv.1 (alSet fieldSources source v) }
    let currentPriority := (alGet st1.fieldPriorities fv.1).getD 0
    if flatGet st1.values fv.1 = none ∨ currentPriority < priority then
      { st1 with
        values := alSet st1.values fv.1 (some v)
        fieldPriorities := alSet st1.fieldPriorities fv.1 priority }
    else st1

/-- Python `set.add` on the insertion-ordered source set. -/
def addSource (l : List String) (s : String) : List String :=
  if l.contains s then l else l ++ [s]

/-- `_merge_row` (the unknown-source `KeyError` of `SOURCE_PRIORITY[source]`
cannot occur — the only callers pass `"pdf"` and `"csv"` — and is modelled
by a default of 0). -/
def mergeRow (rows : List ((String × String × String × String × String) × RowState))
    (values : List (String × Option String)) (source : String) :
    List ((String × String × String × String × String) × RowState) :=
  let priority := (alGet SOURCE_PRIORITY source).getD 0
  let key := rowKey values
  match alGet rows key with
  | none =>
    let st : RowState :=
      { values := values.foldl (fun b fv => alSet b fv.1 fv.2) makeBaseRow
        fieldPriorities := (values.filter (fun fv => fv.2 ≠ none)).map (fun fv => (fv.1, priority))
        dataSources := [source]
        fieldValuesBySource := (values.filter (fun fv => fv.2 ≠ none)).map
          (fun fv => (fv.1, [(source, fv.2.getD "")])) }
    rows ++ [(key, st)]
  | some st =>
    let st1 := { st with dataSources := addSource st.dataSources source }
    alSet rows key (values.foldl (mergeFieldStep priority source) st1)

/-- `_format_comparison_value` with no formatter. -/
def formatComparisonValue (value : Option String) : String :=
  match value with
  | none => ""
  | some s => strTrim s

/-- stable insert for the priority sort of `_format_source_comparison`
(`items.sort` is a stable sort on the priority key). -/
def insertByPriority (x : Nat × String × String) :
    List (Nat × String × String) → List (Nat × String × String)
  | [] => [x]
  | y :: ys => if y.1 < x.1 then y :: insertByPriority x ys else x :: y :: ys

/-- stable sort by priority. -/
def sortByPriority (l : List (Nat × String × String)) : List (Nat × String × String) :=
  l.foldr insertByPriority []

/-- `sep.join(parts)`. -/
def joinSep (sep : String) : List String → String
  | [] => ""
  | [x] => x
  | x :: xs => x ++ sep ++ joinSep sep xs

/-- `_format_source_comparison` with no value formatter (as used for the
`host` and `opponent` fields). -/
def formatSourceComparison (st : RowState) (field : String) : String :=
  match (alGet st.fieldValuesBySource field).getD [] with
  | [] => formatComparisonValue (flatGet st.values field)
  | sv :: svs =>
    let items := (sv :: svs).map (fun p =>
      ((alGet SOURCE_PRIORITY p.1).getD 99, sourceLabel p.1,
       formatComparisonValue (some p.2)))
    let sorted := sortByPriority items
    let nonEmptyValues := ((sorted.map (fun i => i.2.2)).filter (fun v => v ≠ "")).dedup
    if nonEmptyValues ≠ [] ∧ nonEmptyValues.length = 1 then
      let shared := nonEmptyValues.headD ""
      let labels := joinSep ", " (sorted.map (fun i => i.2.1))
      if shared ≠ "" then labels ++ ": " ++ shared else labels
    else
      joinSep " / " (sorted.map (fun i =>
        if i.2.2 ≠ "" then i.2.1 ++ ": " ++ i.2.2 else i.2.1))

/-! ## Claim-side auxiliary definitions -/

/-- join tokens, each preceded by a single space (so
`name ++ joinTok toks` is the name followed by the space-separated
tokens). -/
def joinTok (toks : List (List Char)) : List Char :=
  toks.foldr (fun t acc => ' ' :: (t ++ acc)) []

/-- Modelled from the spec (§4.1/§8): the compact positional layout — the
16 values `[total_points, break_points, plus_minus, serves_attempts,
serves_errors, serves_points, receptions_attempts, receptions_errors,
receptions_positive_pct, receptions_perfect_pct, attacks_attempts,
attacks_errors, attacks_blocked, attacks_points, attacks_success_pct,
blocks_points]` rendered as decimal tokens (`%`-suffixed at the three
percentage positions). -/
def compactValueTokens16 (t0 t1 t2 sa se sp ra re0 pos perf aa ae ab ap apct bp : ℕ) :
    List (List Char) :=
  [natDigits t0, natDigits t1, natDigits t2, natDigits sa, natDigits se,
   natDigits sp, natDigits ra, natDigits re0, natDigits pos ++ ['%'],
   natDigits perf ++ ['%'], natDigits aa, natDigits ae, natDigits ab,
   natDigits ap, natDigits apct ++ ['%'], natDigits bp]

/-- a synthetic compact player line: jersey number 9, the name
`Jordan, Emilia`, then the 16 formatted values. -/
def syntheticCompactLine (toks : List (List Char)) : List Char :=
  s2l "9 Jordan, Emilia" ++ joinTok toks

/-- both halves of a split are within their bounds (the acceptance test
of `_split_compound_value` at split point `k`). -/
def splitWithin (digits : List Char) (firstMax secondMax : Int) (k : Nat) : Prop :=
  (splitHalves digits k).1 ≤ firstMax ∧ (splitHalves digits k).2 ≤ secondMax

instance (digits : List Char) (f s : Int) (k : Nat) :
    Decidable (splitWithin digits f s k) := by
  unfold splitWithin; infer_instance

/-! ## Supporting lemmas -/

theorem isDigitC_iff {c : Char} : isDigitC c = true ↔ 48 ≤ c.toNat ∧ c.toNat ≤ 57 := by
  simp [isDigitC]

theorem digitChar_isDigitC {d : ℕ} (hd : d < 10) : isDigitC (digitChar d) = true := by
  interval_cases d <;> decide

theorem digitVal_digitChar {d : ℕ} (hd : d < 10) : digitVal (digitChar d) = d := by
  interval_cases d <;> decide

theorem natDigits_ne_nil (n : ℕ) : natDigits n ≠ [] := by
  rw [natDigits]
  split <;> simp

theorem mem_natDigits_isDigitC (n : ℕ) : ∀ c ∈ natDigits n, isDigitC c = true := by
  induction n using Nat.strong_induction_on with
  | _ n ih =>
    rw [natDigits]
    split
    · rename_i h
      simpa using digitChar_isDigitC h
    · rename_i h
      intro c hc
      rcases List.mem_append.1 hc with h1 | h1
      · exact ih (n / 10) (Nat.div_lt_self (by omega) (by omega)) c h1
      · simp only [List.mem_singleton] at h1
        subst h1
        exact digitChar_isDigitC (Nat.mod_lt _ (by omega))

theorem decToNat_append_singleton (a : List Char) (c : Char) :
    decToNat (a ++ [c]) = decToNat a * 10 + digitVal c := by
  simp [decToNat, List.foldl_append]

theorem decToNat_natDigits (n : ℕ) : decToNat (natDigits n) = n := by
  induction n using Nat.strong_induction_on with
  | _ n ih =>
    rw [natDigits]
    split
    · rename_i h
      simp [decToNat, digitVal_digitChar h]
    · rename_i h
      rw [decToNat_append_singleton, ih (n / 10) (Nat.div_lt_self (by omega) (by omega)),
        digitVal_digitChar (Nat.mod_lt _ (by omega))]
      omega

theorem digit_char_classes {c : Char} (h : isDigitC c = true) :
    isSpaceChar c = false ∧ c ≠ nbsp ∧ sanitizeChar c = c ∧
    c ≠ '+' ∧ c ≠ '-' ∧ c ≠ '−' ∧ c ≠ '.' ∧ c ≠ ',' ∧ c ≠ '%' ∧ c ≠ '–' ∧ c ≠ '*' := by
  rw [isDigitC_iff] at h
  have ne : ∀ d : Char, ¬(48 ≤ d.toNat ∧ d.toNat ≤ 57) → c ≠ d :=
    fun d hd he => hd (he ▸ h)
  refine ⟨?_, ne _ (by decide), ?_, ne _ (by decide), ne _ (by decide), ne _ (by decide),
    ne _ (by decide), ne _ (by decide), ne _ (by decide), ne _ (by decide), ne _ (by decide)⟩
  · simp only [isSpaceChar, Bool.or_eq_false_iff, decide_eq_false_iff_not]
    exact ⟨⟨⟨⟨⟨⟨ne _ (by decide), ne _ (by decide)⟩, ne _ (by decide)⟩, ne _ (by decide)⟩,
      ne _ (by decide)⟩, ne _ (by decide)⟩, ne _ (by decide)⟩
  · simp [sanitizeChar, ne nbsp (by decide), ne '·' (by decide), ne '−' (by decide),
      ne '(' (by decide), ne ')' (by decide)]

theorem dropWhile_cons_false {p : Char → Bool} {a : Char} {l : List Char}
    (h : p a = false) : (a :: l).dropWhile p = a :: l := by
  simp [List.dropWhile_cons, h]

theorem dropWhile_eq_self_of_forall {p : Char → Bool} {l : List Char}
    (h : ∀ c ∈ l, p c = false) : l.dropWhile p = l := by
  cases l with
  | nil => rfl
  | cons a t => exact dropWhile_cons_false (h a (by simp))

theorem takeWhile_eq_self_of_forall {p : Char → Bool} {l : List Char}
    (h : ∀ c ∈ l, p c = true) : l.takeWhile p = l := by
  induction l with
  | nil => rfl
  | cons a t ih =>
    rw [List.takeWhile_cons, h a (by simp), ih (fun c hc => h c (by simp [hc]))]
    simp

theorem trimChars_eq_self {l : List Char} (h : ∀ c ∈ l, isSpaceChar c = false) :
    trimChars l = l := by
  unfold trimChars trimLeft trimRight
  rw [dropWhile_eq_self_of_forall h,
    dropWhile_eq_self_of_forall (fun c hc => h c (List.mem_reverse.1 hc)),
    List.reverse_reverse]

theorem trimLeft_cons_false {c : Char} {l : List Char} (h : isSpaceChar c = false) :
    trimLeft (c :: l) = c :: l := dropWhile_cons_false h

theorem trimLeft_space_cons (l : List Char) : trimLeft (' ' :: l) = trimLeft l := by
  unfold trimLeft
  rw [List.dropWhile_cons]
  simp [show isSpaceChar ' ' = true from by decide]

theorem trimRight_eq_self {l : List Char}
    (h : ∀ c, l.getLast? = some c → isSpaceChar c = false) : trimRight l = l := by
  unfold trimRight
  cases hr : l.reverse with
  | nil => simp [List.reverse_eq_nil_iff.1 hr]
  | cons c t =>
    have hc : l.getLast? = some c := by
      rw [← List.head?_reverse, hr, List.head?_cons]
    rw [dropWhile_cons_false (h c hc), ← hr, List.reverse_reverse]

theorem trimChars_cons_getLast {c : Char} {l : List Char}
    (h1 : isSpaceChar c = false)
    (h2 : ∀ d, (c :: l).getLast? = some d → isSpaceChar d = false) :
    trimChars (c :: l) = c :: l := by
  unfold trimChars
  rw [trimLeft_cons_false h1, trimRight_eq_self h2]

theorem wordsAux_nil (acc : List Char) :
    wordsAux [] acc = if acc = [] then [] else [acc.reverse] := rfl

theorem wordsAux_space_cons {c : Char} (cs acc : List Char) (hc : isSpaceChar c = true) :
    wordsAux (c :: cs) acc =
      if acc = [] then wordsAux cs [] else acc.reverse :: wordsAux cs [] := by
  simp [wordsAux, hc]

theorem wordsAux_append_noSpace {w : List Char} (l acc : List Char)
    (h : ∀ c ∈ w, isSpaceChar c = false) :
    wordsAux (w ++ l) acc = wordsAux l (w.reverse ++ acc) := by
  induction w generalizing acc with
  | nil => simp
  | cons c ws ih =>
    have hc := h c (by simp)
    simp only [List.cons_append, wordsAux, hc, Bool.false_eq_true, if_false]
    rw [show ws.append l = ws ++ l from rfl, ih (c :: acc) (fun d hd => h d (by simp [hd]))]
    simp

theorem mem_joinTok {c : Char} {toks : List (List Char)} (h : c ∈ joinTok toks) :
    c = ' ' ∨ ∃ t ∈ toks, c ∈ t := by
  induction toks with
  | nil => simp [joinTok] at h
  | cons t ts ih =>
    simp only [joinTok, List.foldr_cons, List.mem_cons, List.mem_append] at h
    rcases h with h | h
    · exact Or.inl h
    · rcases h with h | h
      · exact Or.inr ⟨t, by simp, h⟩
      · rcases ih h with h1 | ⟨u, hu, hc⟩
        · exact Or.inl h1
        · exact Or.inr ⟨u, by simp [hu], hc⟩

theorem words_joinTok {toks : List (List Char)}
    (h : ∀ t ∈ toks, t ≠ [] ∧ ∀ c ∈ t, isSpaceChar c = false) :
    ∀ acc, wordsAux (joinTok toks) acc =
      (if acc = [] then [] else [acc.reverse]) ++ toks := by
  induction toks with
  | nil => intro acc; simp [joinTok, wordsAux_nil]
  | cons t ts ih =>
    intro acc
    have ht := h t (by simp)
    have hjt : joinTok (t :: ts) = ' ' :: (t ++ joinTok ts) := rfl
    rw [hjt, wordsAux_space_cons _ _ (by decide),
      wordsAux_append_noSpace _ _ ht.2]
    rw [ih (fun u hu => h u (by simp [hu])) (t.reverse ++ [])]
    have : (t.reverse ++ [] : List Char) ≠ [] := by simpa using ht.1
    simp only [this, if_neg]
    by_cases hacc : acc = [] <;> simp [hacc]

theorem getLast?_of_forall {P : Char → Prop} {l : List Char}
    (h : ∀ c ∈ l, P c) : ∀ c, l.getLast? = some c → P c := by
  intro c hc
  exact h c (List.mem_of_getLast?_eq_some hc)

theorem map_eq_self_of {f : Char → Char} {l : List Char} (h : ∀ c ∈ l, f c = c) :
    l.map f = l := by
  induction l with
  | nil => rfl
  | cons a t ih => rw [List.map_cons, h a (by simp), ih (fun c hc => h c (by simp [hc]))]

theorem filter_eq_self_of {p : Char → Bool} {l : List Char} (h : ∀ c ∈ l, p c = true) :
    l.filter p = l := List.filter_eq_self.2 h

theorem pyRound_intCast (n : ℤ) : pyRound (n : ℚ) = n := by
  unfold pyRound
  simp only [Int.floor_intCast, sub_self]
  norm_num

theorem natDigits_head_digit (n : ℕ) :
    ∃ c cs, natDigits n = c :: cs ∧ isDigitC c = true := by
  cases hd : natDigits n with
  | nil => exact absurd hd (natDigits_ne_nil n)
  | cons c cs =>
    exact ⟨c, cs, rfl, mem_natDigits_isDigitC n c (by simp [hd])⟩

theorem pyIntOpt_natDigits (n : ℕ) : pyIntOpt (natDigits n) = some (n : Int) := by
  obtain ⟨c, cs, hd, hdig⟩ := natDigits_head_digit n
  have hall := mem_natDigits_isDigitC n
  have hcls := digit_char_classes hdig
  unfold pyIntOpt
  rw [hd]
  simp only [List.headD_cons, hcls.2.2.2.1, hcls.2.2.2.2.1, or_self, if_false]
  rw [← hd, takeWhile_eq_self_of_forall hall,
    List.dropWhile_eq_nil_iff.2 hall]
  simp [natDigits_ne_nil n, decToNat_natDigits n]

theorem parseFloat_natDigits (n : ℕ) : parseFloat (natDigits n) = some (n : ℚ) := by
  obtain ⟨c, cs, hd, hdig⟩ := natDigits_head_digit n
  have hall := mem_natDigits_isDigitC n
  have hcls := digit_char_classes hdig
  unfold parseFloat
  rw [hd]
  simp only [List.headD_cons, hcls.2.2.2.1, hcls.2.2.2.2.1, or_self, if_false]
  rw [← hd, takeWhile_eq_self_of_forall hall,
    List.dropWhile_eq_nil_iff.2 hall]
  simp [natDigits_ne_nil n, decToNat_natDigits n]

theorem natDigits_noSpace (n : ℕ) : ∀ c ∈ natDigits n, isSpaceChar c = false :=
  fun c hc => (digit_char_classes (mem_natDigits_isDigitC n c hc)).1

theorem natDigits_ne_dash (n : ℕ) :
    natDigits n ≠ ['-'] ∧ natDigits n ≠ ['–'] := by
  constructor <;> intro h
  · have := mem_natDigits_isDigitC n '-' (by simp [h])
    simp [isDigitC] at this
  · have := mem_natDigits_isDigitC n '–' (by simp [h])
    simp [isDigitC] at this

theorem filter_natDigits_self (n : ℕ) (p : Char → Bool)
    (hp : ∀ c, isDigitC c = true → p c = true) :
    (natDigits n).filter p = natDigits n :=
  filter_eq_self_of (fun c hc => hp c (mem_natDigits_isDigitC n c hc))

theorem parseIntToken_natDigits (n : ℕ) : parseIntToken (natDigits n) = (n : Int) := by
  unfold parseIntToken
  rw [trimChars_eq_self (natDigits_noSpace n)]
  rw [filter_natDigits_self n _ (fun c hc => by
    simp [(digit_char_classes hc).2.1])]
  simp only [natDigits_ne_nil n, (natDigits_ne_dash n).1, (natDigits_ne_dash n).2,
    or_self, if_false]
  rw [filter_natDigits_self n _ (fun c hc => by
    have h := digit_char_classes hc
    simp [h.2.2.2.2.2.2.1, h.2.2.2.2.2.2.2.1])]
  rw [pyIntOpt_natDigits n]
  rfl

theorem intDigits_natCast (n : ℕ) : intDigits (n : Int) = natDigits n := by
  unfold intDigits
  simp

theorem parsePercentageToken_natDigits (n : ℕ) :
    parsePercentageToken (natDigits n ++ ['%']) = natDigits n ++ ['%'] := by
  have hmem : ∀ c ∈ natDigits n ++ ['%'], isDigitC c = true ∨ c = '%' := by
    intro c hc
    rcases List.mem_append.1 hc with h | h
    · exact Or.inl (mem_natDigits_isDigitC n c h)
    · simp at h; exact Or.inr h
  unfold parsePercentageToken
  rw [trimChars_eq_self (fun c hc => by
    rcases hmem c hc with h | h
    · exact (digit_char_classes h).1
    · subst h; decide)]
  rw [filter_eq_self_of (fun c hc => by
    rcases hmem c hc with h | h
    · simp [(digit_char_classes h).2.1]
    · subst h; decide)]
  have hne1 : natDigits n ++ ['%'] ≠ [] := by simp
  have hne2 : natDigits n ++ ['%'] ≠ ['-'] := by
    intro h
    have := congrArg List.getLast? h
    simp [List.getLast?_concat] at this
  have hne3 : natDigits n ++ ['%'] ≠ ['–'] := by
    intro h
    have := congrArg List.getLast? h
    simp [List.getLast?_concat] at this
  simp only [hne1, hne2, hne3, or_self, if_false]
  have hfilter : (natDigits n ++ ['%']).filter (fun c => c ≠ '%') = natDigits n := by
    rw [List.filter_append]
    rw [filter_natDigits_self n _ (fun c hc => by
      simp [(digit_char_classes hc).2.2.2.2.2.2.2.2.1])]
    simp
  rw [hfilter]
  rw [map_eq_self_of (fun c hc => by
    have h := digit_char_classes (mem_natDigits_isDigitC n c hc)
    simp [h.2.2.2.2.2.2.2.1])]
  rw [parseFloat_natDigits n]
  have hpr : pyRound ((n : ℕ) : ℚ) = ((n : ℕ) : ℤ) := by
    rw [show ((n : ℚ)) = (((n : ℤ)) : ℚ) from by push_cast; ring]
    exact pyRound_intCast n
  simp only [hpr, intDigits_natCast]

theorem isCompactValue_natDigits (n : ℕ) : isCompactValue (natDigits n) = true := by
  obtain ⟨c, cs, hd, hdig⟩ := natDigits_head_digit n
  have hall := mem_natDigits_isDigitC n
  have hcls := digit_char_classes hdig
  have hdot : natDigits n ≠ ['.'] := by
    intro h
    have := mem_natDigits_isDigitC n '.' (by simp [h])
    simp [isDigitC] at this
  unfold isCompactValue
  rw [if_neg hdot, hd]
  simp only [hcls.2.2.2.1, hcls.2.2.2.2.1, hcls.2.2.2.2.2.1, or_self, if_false]
  rw [← hd, takeWhile_eq_self_of_forall hall, List.dropWhile_eq_nil_iff.2 hall]
  simp [natDigits_ne_nil n]

theorem isCompactValue_natDigitsPct (n : ℕ) :
    isCompactValue (natDigits n ++ ['%']) = true := by
  obtain ⟨c, cs, hd, hdig⟩ := natDigits_head_digit n
  have hall := mem_natDigits_isDigitC n
  have hcls := digit_char_classes hdig
  have hdot : natDigits n ++ ['%'] ≠ ['.'] := by
    intro h
    have := congrArg List.getLast? h
    simp [List.getLast?_concat] at this
  unfold isCompactValue
  rw [if_neg hdot, hd, List.cons_append]
  simp only [hcls.2.2.2.1, hcls.2.2.2.2.1, hcls.2.2.2.2.2.1, or_self, if_false]
  rw [← List.cons_append, ← hd, List.dropWhile_append_of_pos hall,
    List.takeWhile_append_of_pos hall]
  have h1 : List.dropWhile isDigitC ['%'] = ['%'] := by decide
  rw [h1]
  simp [natDigits_ne_nil n]

theorem pctTok_noSpace (n : ℕ) : ∀ c ∈ natDigits n ++ ['%'], isSpaceChar c = false := by
  intro c hc
  rcases List.mem_append.1 hc with h | h
  · exact natDigits_noSpace n c h
  · simp at h; subst h; decide

theorem natDigits_ne_star (n : ℕ) : natDigits n ≠ ['*'] := by
  intro h
  have := mem_natDigits_isDigitC n '*' (by simp [h])
  simp [isDigitC] at this

theorem pct_ne_star (n : ℕ) : natDigits n ++ ['%'] ≠ ['*'] := by
  intro h
  have := congrArg List.getLast? h
  simp [List.getLast?_concat] at this

theorem natDigits_sanitize (n : ℕ) : ∀ c ∈ natDigits n, sanitizeChar c = c :=
  fun c hc => (digit_char_classes (mem_natDigits_isDigitC n c hc)).2.2.1

theorem pctTok_sanitize (n : ℕ) : ∀ c ∈ natDigits n ++ ['%'], sanitizeChar c = c := by
  intro c hc
  rcases List.mem_append.1 hc with h | h
  · exact natDigits_sanitize n c h
  · simp at h; subst h; decide

theorem natDigits_ne_nbsp (n : ℕ) : ∀ c ∈ natDigits n, c ≠ nbsp :=
  fun c hc => (digit_char_classes (mem_natDigits_isDigitC n c hc)).2.1

theorem pctTok_ne_nbsp (n : ℕ) : ∀ c ∈ natDigits n ++ ['%'], c ≠ nbsp := by
  intro c hc
  rcases List.mem_append.1 hc with h | h
  · exact natDigits_ne_nbsp n c h
  · simp at h; subst h; decide

theorem collectCompact_all16 {rest : List (List Char)} :
    ∀ (ws acc : List (List Char)) (c : Nat),
      ws ≠ [] →
      (∀ t ∈ ws, t ≠ [] ∧ trimChars t = t ∧ isCompactValue t = true) →
      acc.length + ws.length = 16 →
      collectCompact (ws ++ rest) acc c = (ws.reverse ++ acc, c + ws.length) := by
  intro ws
  induction ws with
  | nil => intro acc c h; exact absurd rfl h
  | cons t ws' ih =>
    intro acc c _ hgood hlen
    obtain ⟨ht1, ht2, ht3⟩ := hgood t (by simp)
    rw [List.cons_append, collectCompact]
    simp only [ht1, if_false, ht2, ht3, if_true]
    cases hws' : ws' with
    | nil =>
      subst hws'
      have h15 : acc.length = 15 := by simp at hlen; omega
      simp [ht2, h15]
    | cons u us =>
      have hne16 : (t :: acc).length ≠ 16 := by
        subst hws'
        simp at hlen ⊢
        omega
      simp only [hne16, if_false]
      rw [← hws']
      rw [ih (t :: acc) (c + 1) (by simp [hws']) (fun v hv => hgood v (by simp [hv]))
        (by simp at hlen ⊢; omega)]
      simp
      omega

theorem collectCompact_ne_nil :
    ∀ (l acc : List (List Char)) (c : Nat), acc ≠ [] →
      (collectCompact l acc c).1 ≠ [] := by
  intro l
  induction l with
  | nil => intro acc c h; simpa [collectCompact] using h
  | cons t rest ih =>
    intro acc c h
    rw [collectCompact]
    by_cases ht : t = []
    · simp only [ht, if_true]
      exact ih acc c h
    · simp only [ht, if_false]
      by_cases hcv : isCompactValue (trimChars t) = true
      · simp only [hcv, if_true]
        by_cases h16 : (trimChars t :: acc).length = 16
        · simp [h16]
        · simp only [h16, if_false]
          exact ih _ _ (by simp)
      · simp only [Bool.not_eq_true] at hcv
        simp only [hcv, Bool.false_eq_true, if_false, h, if_false]
        simpa using h

theorem collectCompact_nil_iff :
    ∀ (l : List (List Char)) (c : Nat),
      (collectCompact l [] c).1 = [] ↔ ∀ t ∈ l, isCompactValue (trimChars t) = false := by
  intro l
  induction l with
  | nil => intro c; simp [collectCompact]
  | cons t rest ih =>
    intro c
    rw [collectCompact]
    by_cases ht : t = []
    · simp only [ht, if_true]
      rw [ih c]
      constructor
      · intro h
        intro u hu
        rcases List.mem_cons.1 hu with h1 | h1
        · subst h1; decide
        · exact h u h1
      · intro h u hu
        exact h u (by simp [hu])
    · simp only [ht, if_false]
      by_cases hcv : isCompactValue (trimChars t) = true
      · simp only [hcv, if_true]
        by_cases h16 : ([trimChars t] : List (List Char)).length = 16
        · simp at h16
        · simp only [h16, if_false]
          constructor
          · intro h
            exact absurd h (collectCompact_ne_nil rest [trimChars t] (c + 1) (by simp))
          · intro h
            have := h t (by simp)
            rw [hcv] at this
            cases this
      · simp only [Bool.not_eq_true] at hcv
        simp only [hcv, Bool.false_eq_true, if_false, if_true]
        rw [ih c]
        constructor
        · intro h u hu
          rcases List.mem_cons.1 hu with h1 | h1
          · subst h1; exact hcv
          · exact h u h1
        · intro h u hu
          exact h u (by simp [hu])

theorem collectCompact_structure :
    ∀ (l acc : List (List Char)) (c : Nat), acc.length < 16 →
      ∃ pre, (collectCompact l acc c).1 = pre ++ acc ∧
        (collectCompact l acc c).2 = c + pre.length ∧
        (collectCompact l acc c).1.length ≤ 16 := by
  intro l
  induction l with
  | nil =>
    intro acc c h
    exact ⟨[], by simp [collectCompact], by simp [collectCompact], by simp [collectCompact]; omega⟩
  | cons t rest ih =>
    intro acc c h
    rw [collectCompact]
    by_cases ht : t = []
    · simp only [ht, if_true]
      exact ih acc c h
    · simp only [ht, if_false]
      by_cases hcv : isCompactValue (trimChars t) = true
      · simp only [hcv, if_true]
        by_cases h16 : (trimChars t :: acc).length = 16
        · refine ⟨[trimChars t], by simp [h16], by simp [h16], by simp [h16]⟩
        · simp only [h16, if_false]
          have hlt : (trimChars t :: acc).length < 16 := by
            simp at h16 ⊢
            omega
          obtain ⟨pre, h1, h2, h3⟩ := ih (trimChars t :: acc) (c + 1) hlt
          exact ⟨pre ++ [trimChars t], by simp [h1], by simp [h2]; omega, h3⟩
      · simp only [Bool.not_eq_true] at hcv
        simp only [hcv, Bool.false_eq_true, if_false]
        by_cases hacc : acc = []
        · subst hacc
          simp only [if_true]
          exact ih [] c (by simp)
        · simp only [hacc, if_false]
          exact ⟨[], by simp, by simp, by show acc.length ≤ 16; omega⟩

theorem pyRound_le {q : ℚ} {n : ℤ} (h : q ≤ (n : ℚ)) : pyRound q ≤ n := by
  have hf : ⌊q⌋ ≤ n := by
    have h1 := Int.floor_mono h
    rwa [Int.floor_intCast] at h1
  have key : ¬(q - (⌊q⌋ : ℚ) < 1/2) → ⌊q⌋ + 1 ≤ n := by
    intro h1
    rcases lt_or_eq_of_le hf with h4 | h4
    · omega
    · exfalso
      have hq1 : q ≤ (⌊q⌋ : ℚ) := by rw [h4]; exact h
      have hq2 : (⌊q⌋ : ℚ) ≤ q := Int.floor_le q
      apply h1
      have hq0 : q - (⌊q⌋ : ℚ) = 0 := by linarith
      rw [hq0]
      norm_num
  show (if q - (⌊q⌋ : ℚ) < 1/2 then ⌊q⌋
    else if (1:ℚ)/2 < q - (⌊q⌋ : ℚ) then ⌊q⌋ + 1
    else if ⌊q⌋ % 2 = 0 then ⌊q⌋ else ⌊q⌋ + 1) ≤ n
  split_ifs with h1 h2 h3
  · exact hf
  · exact key h1
  · exact hf
  · exact key h1

theorem splitSearch_some_iff (digits : List Char) (f s : Int) :
    ∀ (fuel k : Nat) (p : Int × Int),
      splitSearch digits f s k fuel = some p ↔
      ∃ i, k ≤ i ∧ i < k + fuel ∧ splitWithin digits f s i ∧
        (∀ j, k ≤ j → j < i → ¬ splitWithin digits f s j) ∧
        p = splitHalves digits i := by
  intro fuel
  induction fuel with
  | zero =>
    intro k p
    constructor
    · intro h
      simp [splitSearch] at h
    · rintro ⟨i, h1, h2, _⟩
      omega
  | succ fuel ih =>
    intro k p
    rw [splitSearch]
    by_cases hk : splitWithin digits f s k
    · rw [if_pos (show (splitHalves digits k).1 ≤ f ∧ (splitHalves digits k).2 ≤ s from hk)]
      constructor
      · intro h
        refine ⟨k, le_refl k, by omega, hk, fun j hj1 hj2 => by omega, ?_⟩
        simpa using h.symm
      · rintro ⟨i, h1, h2, h3, h4, h5⟩
        have hik : i = k := by
          by_contra hne
          exact h4 k (le_refl k) (by omega) hk
        subst hik
        simp [h5]
    · rw [if_neg (show ¬((splitHalves digits k).1 ≤ f ∧ (splitHalves digits k).2 ≤ s) from hk)]
      rw [ih (k + 1) p]
      constructor
      · rintro ⟨i, h1, h2, h3, h4, h5⟩
        refine ⟨i, by omega, by omega, h3, ?_, h5⟩
        intro j hj1 hj2
        rcases Nat.eq_or_lt_of_le hj1 with he | hlt
        · subst he; exact hk
        · exact h4 j hlt hj2
      · rintro ⟨i, h1, h2, h3, h4, h5⟩
        have hik : k + 1 ≤ i := by
          rcases Nat.eq_or_lt_of_le h1 with he | hlt
          · subst he; exact absurd h3 hk
          · omega
        exact ⟨i, hik, by omega, h3, fun j hj1 hj2 => h4 j (by omega) hj2, h5⟩

theorem splitSearch_none_iff (digits : List Char) (f s : Int) :
    ∀ (fuel k : Nat),
      splitSearch digits f s k fuel = none ↔
      ∀ i, k ≤ i → i < k + fuel → ¬ splitWithin digits f s i := by
  intro fuel
  induction fuel with
  | zero =>
    intro k
    constructor
    · intro _ i h1 h2
      omega
    · intro _
      rfl
  | succ fuel ih =>
    intro k
    rw [splitSearch]
    by_cases hk : splitWithin digits f s k
    · rw [if_pos (show (splitHalves digits k).1 ≤ f ∧ (splitHalves digits k).2 ≤ s from hk)]
      constructor
      · intro h
        cases h
      · intro h
        exact absurd hk (h k (le_refl k) (by omega))
    · rw [if_neg (show ¬((splitHalves digits k).1 ≤ f ∧ (splitHalves digits k).2 ≤ s) from hk)]
      rw [ih (k + 1)]
      constructor
      · intro h i h1 h2
        rcases Nat.eq_or_lt_of_le h1 with he | hlt
        · subst he; exact hk
        · exact h i hlt (by omega)
      · intro h i h1 h2
        exact h i (by omega) (by omega)

/-! ## Claims -/

/-- C2 (amended): the Team-Totals Parser treats a line as a sentinel
exactly when the trimmed line equals the single literal
`"Spieler insgesamt"`, case-sensitively; no translated or slash-joined
variant is recognised.  Every line it does accept also satisfies the
spec's broader (case-insensitive, variant-accepting) sentinel
predicate. -/
theorem C2_sentinel_exact_literal_only :
    (∀ line : List Char,
      isStatsTotalsMarker line = true ↔ trimChars line = s2l "Spieler insgesamt") ∧
    (∀ line : List Char, isStatsTotalsMarker line = true → sentinelSpec line = true) := by
  constructor
  · intro line
    simp [isStatsTotalsMarker]
  · intro line h
    have h' : trimChars line = s2l "Spieler insgesamt" := by
      simpa [isStatsTotalsMarker] using h
    unfold sentinelSpec
    rw [h']
    decide

/-- C2 (counterexample): `"Players total"` is a sentinel according to the
claim's description but is not recognised by the code. -/
theorem C2_sentinel_counterexample :
    sentinelSpec (s2l "Players total") = true ∧
    isStatsTotalsMarker (s2l "Players total") = false := by
  constructor <;> decide

/-- C2 (witness): the code's sentinel itself satisfies the spec predicate. -/
theorem C2_sentinel_witness :
    sentinelSpec (s2l " Spieler insgesamt ") = true :=
  C2_sentinel_exact_literal_only.2 (s2l " Spieler insgesamt ") (by decide)

/-- C7 (amended): when the backward walk finds `c` (1 ≤ c ≤ 16) trailing
value tokens, the result is the found tokens followed — right-padded, not
left-padded — by `16 - c` copies of the `"."` sentinel, for a total
length of exactly 16, so the positional mapping never indexes out of
range. -/
theorem C7_right_padding :
    ∀ (parts l : List (List Char)) (c : Nat),
      extractCompactValueTokens parts = some (l, c) →
      1 ≤ c ∧ c ≤ 16 ∧ l.length = 16 ∧
      ∃ vs, vs.length = c ∧ l = vs ++ List.replicate (16 - c) ['.'] := by
  intro parts l c h
  obtain ⟨pre, h1, h2, h3⟩ := collectCompact_structure parts.reverse [] 0 (by simp)
  rw [List.append_nil] at h1
  rw [h1] at h3
  simp only [extractCompactValueTokens] at h
  rw [h1, h2] at h
  by_cases hpre : pre = []
  · rw [if_pos hpre] at h
    cases h
  · rw [if_neg hpre] at h
    have h' := Option.some.inj h
    injection h' with hl hc
    subst hc
    subst hl
    exact ⟨by simpa using List.length_pos.2 hpre, by omega,
      by simp; omega, pre, by omega, by simp⟩

/-- C7 (counterexample): with a single trailing value token `"5"`, the
extraction yields `"5"` at position 0 and the `"."` padding at the
trailing positions — the opposite of the claimed left-padding. -/
theorem C7_left_pad_counterexample :
    extractCompactValueTokens [s2l "x", s2l "5"] =
      some (s2l "5" :: List.replicate 15 (s2l "."), 1) ∧
    (s2l "5" :: List.replicate 15 (s2l ".")).getD 0 [] = s2l "5" ∧
    (s2l "5" :: List.replicate 15 (s2l ".")).getD 15 [] = s2l "." := by
  refine ⟨by decide, by decide, by decide⟩

/-- C7 (witness): the padding theorem applied to the concrete two-part
fragment. -/
theorem C7_right_padding_witness :
    1 ≤ 1 ∧ 1 ≤ 16 ∧ (s2l "5" :: List.replicate 15 (s2l ".")).length = 16 ∧
    ∃ vs, vs.length = 1 ∧
      s2l "5" :: List.replicate 15 (s2l ".") =
        vs ++ List.replicate (16 - 1) ['.'] :=
  C7_right_padding [s2l "x", s2l "5"] (s2l "5" :: List.replicate 15 (s2l ".")) 1 (by decide)

/-- C8 (amended): the compact token extraction returns the no-match
sentinel `None` exactly when the fragment contains no value-pattern token
at all (not "fewer than 3"); the compact player parse then propagates
that `None`.  With one or two trailing numeric tokens the extraction
still succeeds. -/
theorem C8_no_match_iff_no_value_tokens :
    (∀ parts : List (List Char),
      extractCompactValueTokens parts = none ↔
        ∀ t ∈ parts, isCompactValue (trimChars t) = false) ∧
    (∀ (pn : List Char → List Char) (rest teamName : List Char) (j : Option Int),
      extractCompactValueTokens (tokenizeCompactStatsText rest) = none →
      parseCompactPlayerStats pn rest teamName j = none) := by
  constructor
  · intro parts
    unfold extractCompactValueTokens
    constructor
    · intro h
      by_cases hnil : (collectCompact parts.reverse [] 0).1 = []
      · intro t ht
        exact (collectCompact_nil_iff parts.reverse 0).1 hnil t (by simp [ht])
      · rw [if_neg hnil] at h
        cases h
    · intro h
      rw [if_pos ((collectCompact_nil_iff parts.reverse 0).2
        (fun t ht => h t (List.mem_reverse.1 ht)))]
  · intro pn rest teamName j h
    simp [parseCompactPlayerStats, h]

/-- C8 (counterexample): the fragment `"Name 5"` has a single trailing
numeric token — fewer than 3 — yet the parser returns a parsed record,
not the no-match sentinel. -/
theorem C8_few_tokens_counterexample :
    (extractCompactValueTokens (tokenizeCompactStatsText (s2l "Name 5"))).map
        (fun p => p.2) = some 1 ∧
    (parseCompactPlayerStats (fun n => n) (s2l "Name 5") (s2l "T") none).isSome = true := by
  refine ⟨by decide, by decide⟩

/-- C8 (witness): a fragment with no numeric token at all is rejected. -/
theorem C8_no_match_witness :
    parseCompactPlayerStats (fun n => n) (s2l "abc def") (s2l "T") none = none :=
  C8_no_match_iff_no_value_tokens.2 (fun n => n) (s2l "abc def") (s2l "T") none (by decide)

theorem parseTeamPlayerLinesAux_mem (pn : List Char → List Char) (teamName : List Char) :
    ∀ (lines : List (List Char)) (players : List MatchPlayerStats)
      (pending : Option (List Char)) (p : MatchPlayerStats),
      p ∈ parseTeamPlayerLinesAux pn teamName lines players pending →
      p ∈ players ∨ ∃ text, tryParsePlayerText pn teamName text = some p := by
  intro lines
  induction lines with
  | nil =>
    intro players pending p hp
    rw [parseTeamPlayerLinesAux.eq_def] at hp
    dsimp only at hp
    cases pending with
    | none => exact Or.inl hp
    | some q =>
      dsimp only at hp
      cases htp : tryParsePlayerText pn teamName q with
      | none =>
        rw [htp] at hp
        exact Or.inl hp
      | some parsed =>
        rw [htp] at hp
        rcases List.mem_append.1 hp with h | h
        · exact Or.inl h
        · simp at h
          subst h
          exact Or.inr ⟨q, htp⟩
  | cons rawLine rest ih =>
    intro players pending p hp
    have emitted : ∀ (q : List Char) (parsed : MatchPlayerStats),
        tryParsePlayerText pn teamName q = some parsed →
        p ∈ players ++ [parsed] →
        p ∈ players ∨ ∃ text, tryParsePlayerText pn teamName text = some p := by
      intro q parsed htp hmem
      rcases List.mem_append.1 hmem with h | h
      · exact Or.inl h
      · simp at h
        subst h
        exact Or.inr ⟨q, htp⟩
    rw [parseTeamPlayerLinesAux.eq_def] at hp
    dsimp only at hp
    split at hp
    · exact ih players pending p hp
    · split at hp
      · exact ih players none p hp
      · split at hp
        · exact ih players none p hp
        · split at hp
          · exact ih players none p hp
          · split at hp
            · rename_i pending2 q
              split at hp
              · rename_i parsed htp
                rcases ih _ _ p hp with h | h
                · exact emitted _ parsed htp h
                · exact Or.inr h
              · split at hp
                · rename_i parsed htp
                  rcases ih _ _ p hp with h | h
                  · exact emitted _ parsed htp h
                  · exact Or.inr h
                · split at hp
                  · exact ih players _ p hp
                  · exact ih players _ p hp
            · split at hp
              · rename_i parsed htp
                rcases ih _ _ p hp with h | h
                · exact emitted _ parsed htp h
                · exact Or.inr h
              · exact ih players _ p hp

/-- C3 (amended): buffered name-only fragments that never gain a
parseable continuation are dropped, not emitted as zero-statistics
players: every record in the parser's output is the successful parse of
some (possibly merged) line text, and a single non-parsing line yields no
record at all. -/
theorem C3_unparsed_fragments_dropped :
    (∀ (pn : List Char → List Char) (teamName : List Char)
       (lines : List (List Char)) (p : MatchPlayerStats),
       p ∈ parseTeamPlayerLines pn lines teamName →
       ∃ text, tryParsePlayerText pn teamName text = some p) ∧
    (∀ (pn : List Char → List Char) (teamName line : List Char),
       tryParsePlayerText pn teamName (trimChars line) = none →
       parseTeamPlayerLines pn [line] teamName = []) := by
  constructor
  · intro pn teamName lines p hp
    rcases parseTeamPlayerLinesAux_mem pn teamName lines [] none p hp with h | h
    · cases h
    · exact h
  · intro pn teamName line h
    have hbase : parseTeamPlayerLinesAux pn teamName [] [] (some (trimChars line)) = [] := by
      have e : parseTeamPlayerLinesAux pn teamName [] [] (some (trimChars line)) =
          (match tryParsePlayerText pn teamName (trimChars line) with
           | some parsed => ([] : List MatchPlayerStats) ++ [parsed]
           | none => ([] : List MatchPlayerStats)) := rfl
      rw [e, h]
    unfold parseTeamPlayerLines
    rw [parseTeamPlayerLinesAux.eq_def]
    dsimp only
    rw [h]
    split
    · rfl
    · split
      · rfl
      · split
        · rfl
        · split
          · rfl
          · exact hbase

/-- C3 (counterexample): the roster line `"11 Muster, Anna"` is a
name-only fragment with no numeric continuation; the claim requires an
all-zero inactive player record for it, but the parser emits nothing. -/
theorem C3_inactive_zero_fill_counterexample :
    parseTeamPlayerLines (fun n => n) [s2l "11 Muster, Anna"] (s2l "USC") = [] := by
  decide

/-- C3 (witness): the drop behaviour at a concrete unparseable line. -/
theorem C3_dropped_witness :
    parseTeamPlayerLines (fun n => n) [s2l "Abc"] (s2l "T") = [] :=
  C3_unparsed_fragments_dropped.2 (fun n => n) (s2l "T") (s2l "Abc") (by decide)

theorem filter_pct_natDigits (p : ℕ) :
    (natDigits p ++ ['%']).filter (fun c => c ≠ '%') = natDigits p := by
  rw [List.filter_append]
  rw [filter_natDigits_self p _ (fun c hc => by
    simp [(digit_char_classes hc).2.2.2.2.2.2.2.2.1])]
  simp

theorem map_comma_natDigits (p : ℕ) :
    (natDigits p).map (fun c => if c = ',' then '.' else c) = natDigits p :=
  map_eq_self_of (fun c hc => by
    have h := digit_char_classes (mem_natDigits_isDigitC p c hc)
    simp [h.2.2.2.2.2.2.2.1])

theorem computePercentageCount_natPct (attempts : Int) (p : ℕ) (hpos : 0 < attempts) :
    computePercentageCount attempts (natDigits p ++ ['%']) =
      pyRound ((attempts : ℚ) * ((p : ℚ) / 100)) := by
  unfold computePercentageCount
  rw [if_neg (by omega)]
  rw [trimChars_eq_self (pctTok_noSpace p)]
  rw [if_neg (by simp [natDigits_ne_nil p])]
  rw [filter_pct_natDigits p, map_comma_natDigits p]
  dsimp only
  rw [parseFloat_natDigits p]

/-- rounding a value already known to lie in `[n, n + 1/2)` gives `n`. -/
theorem pyRound_eq_low {q : ℚ} {n : ℤ} (h1 : (n : ℚ) ≤ q) (h2 : q < (n : ℚ) + 1/2) :
    pyRound q = n := by
  have hf : ⌊q⌋ = n := Int.floor_eq_iff.2 ⟨h1, by linarith⟩
  unfold pyRound
  rw [hf]
  rw [if_pos (by linarith)]

/-- C1: `_split_compound_value` tries split points 1, 2, 3 digits from
the right (capped by the digit count) and returns the first split whose
halves are within the bounds, `None` when no split point is in bounds;
the fallback branch of `_parse_match_stats_metrics` applies it with the
serve 60/60 and attack 40/150 bounds and returns `None` (rather than
emitting zeros) as soon as either split fails. -/
theorem C1_glued_split_disambiguation :
    (∀ (value : List Char) (f s a b : Int),
       splitCompoundValue value f s = some (a, b) →
       ∃ k, 1 ≤ k ∧ k ≤ min 3 (value.filter isDigitC).length ∧
         (a, b) = splitHalves (value.filter isDigitC) k ∧ a ≤ f ∧ b ≤ s ∧
         ∀ j, 1 ≤ j → j < k → ¬ splitWithin (value.filter isDigitC) f s j) ∧
    (∀ (value : List Char) (f s : Int),
       splitCompoundValue value f s = none ↔
       ∀ k, 1 ≤ k → k ≤ min 3 (value.filter isDigitC).length →
         ¬ splitWithin (value.filter isDigitC) f s k) ∧
    (∀ tokens : List (List Char),
       splitCompoundValue ((fixFallbackTokens tokens).getD 3 []) 60 60 = none ∨
       splitCompoundValue ((fixFallbackTokens tokens).getD 10 []) 40 150 = none →
       matchStatsFromFallbackTokens tokens = none) := by
  refine ⟨?_, ?_, ?_⟩
  · intro value f s a b h
    simp only [splitCompoundValue] at h
    by_cases hd : value.filter isDigitC = []
    · rw [if_pos hd] at h
      cases h
    · rw [if_neg hd] at h
      obtain ⟨i, h1, h2, h3, h4, h5⟩ :=
        (splitSearch_some_iff (value.filter isDigitC) f s (min 3 (value.filter isDigitC).length) 1 (a, b)).1 h
      refine ⟨i, h1, by omega, h5, ?_, ?_, fun j hj1 hj2 => h4 j hj1 hj2⟩
      · have := h3.1
        rw [← h5] at this
        exact this
      · have := h3.2
        rw [← h5] at this
        exact this
  · intro value f s
    simp only [splitCompoundValue]
    by_cases hd : value.filter isDigitC = []
    · rw [if_pos hd]
      constructor
      · intro _ k hk1 hk2
        rw [hd] at hk2
        simp at hk2
        omega
      · intro _
        rfl
    · rw [if_neg hd]
      rw [splitSearch_none_iff (value.filter isDigitC) f s (min 3 (value.filter isDigitC).length) 1]
      constructor
      · intro h k hk1 hk2
        exact h k hk1 (by omega)
      · intro h i hi1 hi2
        exact h i hi1 (by omega)
  · intro tokens h
    simp only [matchStatsFromFallbackTokens]
    by_cases hg : (fixFallbackTokens tokens).length < 13 ∨
        ¬ ((fixFallbackTokens tokens).getD 1 []).contains '+'
    · rw [if_pos hg]
    · rw [if_neg hg]
      rcases h with h3 | h10
      · rw [h3]
      · rw [h10]
        cases splitCompoundValue ((fixFallbackTokens tokens).getD 3 []) 60 60 <;> rfl

/-- C1 (witness): a token list whose serve compound `"999"` admits no
60/60 split is rejected as a whole. -/
theorem C1_fallback_none_witness :
    matchStatsFromFallbackTokens
      [s2l "75", s2l "33+23", s2l "105", s2l "999", s2l "88", s2l "15", s2l "30%",
       s2l "15%", s2l "132", s2l "10", s2l "852", s2l "39%", s2l "9"] = none :=
  C1_glued_split_disambiguation.2.2 _ (Or.inl (by decide))

/-- C9: the derived reception counts follow
`round(attempts * pct / 100)`, are wired into both derived fields of the
compact metrics builder, are `0` for zero attempts regardless of the
percentage string, and give `receptions_positive = 8` for 30 attempts at
`"27%"`. -/
theorem C9_percentage_count_formula :
    (∀ pct : List Char, computePercentageCount 0 pct = 0) ∧
    (∀ (attempts : Int) (p : ℕ), 0 < attempts →
       computePercentageCount attempts (natDigits p ++ ['%']) =
         pyRound ((attempts : ℚ) * ((p : ℚ) / 100))) ∧
    (∀ tokens : List (List Char),
       (buildMetricsFromCompactTokens tokens).receptions_positive =
         computePercentageCount (parseIntToken (tokens.getD 6 []))
           (parsePercentageToken (tokens.getD 8 [])) ∧
       (buildMetricsFromCompactTokens tokens).receptions_perfect =
         computePercentageCount (parseIntToken (tokens.getD 6 []))
           (parsePercentageToken (tokens.getD 9 []))) ∧
    computePercentageCount 30 (s2l "27%") = 8 := by
  refine ⟨?_, ?_, ?_, ?_⟩
  · intro pct
    simp [computePercentageCount]
  · exact computePercentageCount_natPct
  · intro tokens
    exact ⟨rfl, rfl⟩
  · have h27 : natDigits 27 = s2l "27" := by
      rw [natDigits]
      norm_num
      rw [natDigits]
      norm_num
      decide
    rw [show s2l "27%" = natDigits 27 ++ ['%'] from by rw [h27]; decide]
    rw [computePercentageCount_natPct 30 27 (by decide)]
    exact pyRound_eq_low (by norm_num) (by norm_num)

/-- C9 (witness): the formula applied at 30 attempts and 27 percent. -/
theorem C9_formula_witness :
    computePercentageCount 30 (natDigits 27 ++ ['%']) =
      pyRound ((30 : ℚ) * ((27 : ℕ) / 100 : ℚ)) :=
  C9_percentage_count_formula.2.1 30 27 (by decide)

/-- C10 (amended): the derived reception counts are bounded by the
attempt count only under the side conditions the code does not enforce —
non-negative attempts and a percentage value of at most 100; for
percentage tokens above 100 the invariant fails (see the
counterexample). -/
theorem C10_receptions_bound_le :
    (∀ (attempts : Int) (pct : List Char), 0 ≤ attempts →
      (∀ v : ℚ, parseFloat (((trimChars pct).filter (fun c => c ≠ '%')).map
          (fun c => if c = ',' then '.' else c)) = some v → v ≤ 100) →
      computePercentageCount attempts pct ≤ attempts) ∧
    (∀ tokens : List (List Char),
      (buildMetricsFromCompactTokens tokens).receptions_positive =
        computePercentageCount
          (buildMetricsFromCompactTokens tokens).receptions_attempts
          (buildMetricsFromCompactTokens tokens).receptions_positive_pct ∧
      (buildMetricsFromCompactTokens tokens).receptions_perfect =
        computePercentageCount
          (buildMetricsFromCompactTokens tokens).receptions_attempts
          (buildMetricsFromCompactTokens tokens).receptions_perfect_pct) := by
  constructor
  · intro attempts pct h0 hbound
    unfold computePercentageCount
    by_cases hneg : attempts ≤ 0
    · rw [if_pos hneg]
      exact h0
    · rw [if_neg hneg]
      by_cases hcl : trimChars pct = []
      · rw [if_pos hcl]
        exact h0
      · rw [if_neg hcl]
        dsimp only
        cases hpf : parseFloat (((trimChars pct).filter (fun c => c ≠ '%')).map
            (fun c => if c = ',' then '.' else c)) with
        | none => exact h0
        | some v =>
          have hv := hbound v hpf
          refine pyRound_le ?_
          have h1 : v / 100 ≤ 1 := by linarith
          have h2 : (0 : ℚ) ≤ (attempts : ℚ) := by exact_mod_cast h0
          calc (attempts : ℚ) * (v / 100) ≤ (attempts : ℚ) * 1 :=
                mul_le_mul_of_nonneg_left h1 h2
            _ = (attempts : ℚ) := by ring
  · intro tokens
    have h6 : (buildMetricsFromCompactTokens tokens).receptions_attempts =
        parseIntToken (tokens.getD 6 []) := rfl
    have h8 : (buildMetricsFromCompactTokens tokens).receptions_positive_pct =
        parsePercentageToken (tokens.getD 8 []) := rfl
    have h9 : (buildMetricsFromCompactTokens tokens).receptions_perfect_pct =
        parsePercentageToken (tokens.getD 9 []) := rfl
    have hp : (buildMetricsFromCompactTokens tokens).receptions_positive =
        computePercentageCount (parseIntToken (tokens.getD 6 []))
          (parsePercentageToken (tokens.getD 8 [])) := rfl
    have hq : (buildMetricsFromCompactTokens tokens).receptions_perfect =
        computePercentageCount (parseIntToken (tokens.getD 6 []))
          (parsePercentageToken (tokens.getD 9 [])) := rfl
    rw [h6, h8, h9, hp, hq]
    exact ⟨rfl, rfl⟩

/-- C10 (counterexample): a compact token list with 10 reception attempts
and the (pattern-accepted) percentage token `"150%"` produces
`receptions_positive = 15 > 10 = receptions_attempts`, violating the
claimed invariant. -/
theorem C10_invariant_counterexample :
    (buildMetricsFromCompactTokens
        [s2l "0", s2l "0", s2l "0", s2l "0", s2l "0", s2l "0", s2l "10", s2l "0",
         s2l "150%", s2l "0%", s2l "0", s2l "0", s2l "0", s2l "0", s2l "0%",
         s2l "0"]).receptions_attempts = 10 ∧
    (buildMetricsFromCompactTokens
        [s2l "0", s2l "0", s2l "0", s2l "0", s2l "0", s2l "0", s2l "10", s2l "0",
         s2l "150%", s2l "0%", s2l "0", s2l "0", s2l "0", s2l "0", s2l "0%",
         s2l "0"]).receptions_positive = 15 ∧
    ¬((buildMetricsFromCompactTokens
        [s2l "0", s2l "0", s2l "0", s2l "0", s2l "0", s2l "0", s2l "10", s2l "0",
         s2l "150%", s2l "0%", s2l "0", s2l "0", s2l "0", s2l "0", s2l "0%",
         s2l "0"]).receptions_positive ≤
      (buildMetricsFromCompactTokens
        [s2l "0", s2l "0", s2l "0", s2l "0", s2l "0", s2l "0", s2l "10", s2l "0",
         s2l "150%", s2l "0%", s2l "0", s2l "0", s2l "0", s2l "0", s2l "0%",
         s2l "0"]).receptions_attempts) := by
  have h150 : natDigits 150 = s2l "150" := by
    rw [natDigits]
    norm_num
    rw [natDigits]
    norm_num
    rw [natDigits]
    norm_num
    decide
  have hpctTok : s2l "150%" = natDigits 150 ++ ['%'] := by
    rw [h150]
    decide
  have hpp : parsePercentageToken (s2l "150%") = s2l "150%" := by
    rw [hpctTok, parsePercentageToken_natDigits 150]
  have hcount : computePercentageCount 10 (s2l "150%") = 15 := by
    rw [hpctTok, computePercentageCount_natPct 10 150 (by decide)]
    exact pyRound_eq_low (by push_cast; norm_num) (by push_cast; norm_num)
  have hrp : (buildMetricsFromCompactTokens
      [s2l "0", s2l "0", s2l "0", s2l "0", s2l "0", s2l "0", s2l "10", s2l "0",
       s2l "150%", s2l "0%", s2l "0", s2l "0", s2l "0", s2l "0", s2l "0%",
       s2l "0"]).receptions_positive =
      computePercentageCount (parseIntToken (s2l "10"))
        (parsePercentageToken (s2l "150%")) := rfl
  have hten : parseIntToken (s2l "10") = 10 := by decide
  have hpos : (buildMetricsFromCompactTokens
      [s2l "0", s2l "0", s2l "0", s2l "0", s2l "0", s2l "0", s2l "10", s2l "0",
       s2l "150%", s2l "0%", s2l "0", s2l "0", s2l "0", s2l "0", s2l "0%",
       s2l "0"]).receptions_positive = 15 := by
    rw [hrp, hten, hpp, hcount]
  refine ⟨by decide, hpos, ?_⟩
  rw [hpos]
  rw [show (buildMetricsFromCompactTokens
      [s2l "0", s2l "0", s2l "0", s2l "0", s2l "0", s2l "0", s2l "10", s2l "0",
       s2l "150%", s2l "0%", s2l "0", s2l "0", s2l "0", s2l "0", s2l "0%",
       s2l "0"]).receptions_attempts = 10 from by decide]
  decide

/-- C10 (witness): the bound theorem at 30 attempts and `"27%"`. -/
theorem C10_bound_witness :
    computePercentageCount 30 (s2l "27%") ≤ 30 :=
  C10_receptions_bound_le.1 30 (s2l "27%") (by decide)
    (fun v hv => by
      have harg : ((trimChars (s2l "27%")).filter (fun c => c ≠ '%')).map
          (fun c => if c = ',' then '.' else c) = s2l "27" := by decide
      rw [harg] at hv
      have h27 : natDigits 27 = s2l "27" := by
        rw [natDigits]
        norm_num
        rw [natDigits]
        norm_num
        decide
      rw [← h27, parseFloat_natDigits 27] at hv
      have hveq := Option.some.inj hv
      rw [← hveq]
      have hle : (27 : ℕ) ≤ 100 := by decide
      exact_mod_cast hle)

theorem alGet_cons_eq {κ α : Type} [DecidableEq κ] {a : κ × α} {t : List (κ × α)}
    {k : κ} (h : a.1 = k) : alGet (a :: t) k = some a.2 := by
  simp [alGet, List.find?_cons_of_pos, h]

theorem alGet_cons_ne {κ α : Type} [DecidableEq κ] {a : κ × α} {t : List (κ × α)}
    {k : κ} (h : ¬a.1 = k) : alGet (a :: t) k = alGet t k := by
  simp [alGet, List.find?_cons_of_neg, h]

theorem alGet_alSet {κ α : Type} [DecidableEq κ] (l : List (κ × α)) (k : κ) (v : α) :
    alGet (alSet l k v) k = some v := by
  unfold alSet
  by_cases h : l.any (fun p => decide (p.1 = k))
  · rw [if_pos h]
    revert h
    induction l with
    | nil =>
      intro h
      simp at h
    | cons a t ih =>
      intro h
      by_cases ha : a.1 = k
      · rw [List.map_cons, if_pos ha]
        exact alGet_cons_eq rfl
      · rw [List.map_cons, if_neg ha]
        rw [alGet_cons_ne ha]
        refine ih ?_
        simp only [List.any_cons, ha] at h
        simpa using h
  · rw [if_neg h]
    induction l with
    | nil => exact alGet_cons_eq rfl
    | cons a t ih =>
      simp only [List.any_cons, Bool.or_eq_true, not_or] at h
      rw [List.cons_append, alGet_cons_ne (by simpa using h.1)]
      exact ih (by simpa using h.2)

theorem flatGet_alSet (l : List (String × Option String)) (k : String) (v : Option String) :
    flatGet (alSet l k v) k = v := by
  rw [flatGet, alGet_alSet]
  rfl

/-- C4: the per-field merge rule of `_merge_row`: an incoming non-`None`
value overwrites the stored value exactly when the stored value is absent
or the incoming priority is strictly higher than the priority recorded
for the field (equal priority keeps the first-seen value); an incoming
`None` never changes the state.  Concretely, with `"pdf"` (priority 1)
folded in before `"csv"` (priority 2) and differing `host` values, the
merged row holds the csv value, the comparison renders both, and a
second equal-priority `"pdf"` record does not displace the first. -/
theorem C4_merge_priority_rule :
    (∀ (priority : Nat) (source : String) (st : RowState) (fd : String) (v : String),
      flatGet (mergeFieldStep priority source st (fd, some v)).values fd =
        (if flatGet st.values fd = none ∨ (alGet st.fieldPriorities fd).getD 0 < priority
         then some v else flatGet st.values fd) ∧
      mergeFieldStep priority source st (fd, none) = st) ∧
    ((mergeRow (mergeRow []
        [("match_id", some "123"), ("team", some "USC"), ("player_name", some "Meier"),
         ("host", some "A")] "pdf")
        [("match_id", some "123"), ("team", some "USC"), ("player_name", some "Meier"),
         ("host", some "B")] "csv").map (fun kv => flatGet kv.2.values "host") =
      [some "B"] ∧
     (mergeRow (mergeRow []
        [("match_id", some "123"), ("team", some "USC"), ("player_name", some "Meier"),
         ("host", some "A")] "pdf")
        [("match_id", some "123"), ("team", some "USC"), ("player_name", some "Meier"),
         ("host", some "B")] "csv").map (fun kv => formatSourceComparison kv.2 "host") =
      ["PDF: A / CSV: B"] ∧
     (mergeRow (mergeRow []
        [("match_id", some "123"), ("team", some "USC"), ("player_name", some "Meier"),
         ("host", some "A")] "pdf")
        [("match_id", some "123"), ("team", some "USC"), ("player_name", some "Meier"),
         ("host", some "X")] "pdf").map (fun kv => flatGet kv.2.values "host") =
      [some "A"]) := by
  constructor
  · intro priority source st fd v
    constructor
    · simp only [mergeFieldStep]
      split_ifs with h1
      · exact flatGet_alSet _ _ _
      · rfl
    · rfl
  · refine ⟨by decide, by decide, by decide⟩

/-- C5: the kickoff fallback component of the row key is blanked whenever
`match_id` or `match_number` is present, the team/player components are
lowercased, and two records with the same `match_id` but differently
cased names land in one merged row. -/
theorem C5_key_derivation :
    (∀ values : List (String × Option String),
      ((flatGet values "match_id").getD "" ≠ "" ∨
       (flatGet values "match_number").getD "" ≠ "") →
      (rowKey values).2.2.1 = "") ∧
    (∀ values : List (String × Option String),
      (rowKey values).2.2.2.1 = strLower ((flatGet values "team").getD "") ∧
      (rowKey values).2.2.2.2 = strLower ((flatGet values "player_name").getD "")) ∧
    rowKey [("match_id", some "123"), ("team", some "USC Muenster"),
            ("player_name", some "Meier, Anna")] =
      rowKey [("match_id", some "123"), ("team", some "usc muenster"),
              ("player_name", some "MEIER, ANNA")] ∧
    (mergeRow (mergeRow []
        [("match_id", some "123"), ("team", some "USC Muenster"),
         ("player_name", some "Meier, Anna")] "pdf")
        [("match_id", some "123"), ("team", some "usc muenster"),
         ("player_name", some "MEIER, ANNA")] "csv").length = 1 := by
  refine ⟨?_, ?_, by decide, by decide⟩
  · intro values h
    simp only [rowKey]
    rw [if_pos h]
  · intro values
    exact ⟨rfl, rfl⟩

/-- C5 (witness): the kickoff component is blanked for a concrete record
with a `match_id`. -/
theorem C5_key_witness :
    (rowKey [("match_id", some "123"), ("kickoff", some "2025-01-01")]).2.2.1 = "" :=
  C5_key_derivation.1 [("match_id", some "123"), ("kickoff", some "2025-01-01")]
    (by decide)

/-! ### Round-trip machinery for the synthetic compact line (C6) -/

theorem shape_good {t : List Char}
    (h : (∃ n, t = natDigits n) ∨ (∃ n, t = natDigits n ++ ['%'])) :
    t ≠ [] ∧ trimChars t = t ∧ isCompactValue t = true ∧ t ≠ ['*'] ∧
    (∀ c ∈ t, isSpaceChar c = false) ∧ (∀ c ∈ t, c ≠ nbsp) ∧
    (∀ c ∈ t, sanitizeChar c = c) := by
  rcases h with ⟨n, rfl⟩ | ⟨n, rfl⟩
  · exact ⟨natDigits_ne_nil n, trimChars_eq_self (natDigits_noSpace n),
      isCompactValue_natDigits n, natDigits_ne_star n, natDigits_noSpace n,
      natDigits_ne_nbsp n, natDigits_sanitize n⟩
  · exact ⟨by simp [natDigits_ne_nil n], trimChars_eq_self (pctTok_noSpace n),
      isCompactValue_natDigitsPct n, pct_ne_star n, pctTok_noSpace n,
      pctTok_ne_nbsp n, pctTok_sanitize n⟩

theorem compact16_shapes (t0 t1 t2 sa se sp ra re0 pos perf aa ae ab ap apct bp : ℕ) :
    ∀ t ∈ compactValueTokens16 t0 t1 t2 sa se sp ra re0 pos perf aa ae ab ap apct bp,
      (∃ n, t = natDigits n) ∨ (∃ n, t = natDigits n ++ ['%']) := by
  intro t ht
  simp only [compactValueTokens16, List.mem_cons, List.not_mem_nil, or_false] at ht
  rcases ht with rfl | rfl | rfl | rfl | rfl | rfl | rfl | rfl | rfl | rfl | rfl | rfl
    | rfl | rfl | rfl | rfl <;>
    first
      | exact Or.inl ⟨_, rfl⟩
      | exact Or.inr ⟨_, rfl⟩

theorem getLast?_append_right {l₁ l₂ : List Char} (h : l₂ ≠ []) :
    (l₁ ++ l₂).getLast? = l₂.getLast? :=
  List.getLast?_append_of_ne_nil l₁ h

theorem joinTok_cons_ne_nil (t : List Char) (ts : List (List Char)) :
    joinTok (t :: ts) ≠ [] := by
  simp [joinTok]

theorem getLast?_joinTok :
    ∀ (pre : List (List Char)) (t : List Char), t ≠ [] →
      (joinTok (pre ++ [t])).getLast? = t.getLast? := by
  intro pre
  induction pre with
  | nil =>
    intro t ht
    show (' ' :: (t ++ joinTok [])).getLast? = t.getLast?
    rw [show joinTok ([] : List (List Char)) = [] from rfl, List.append_nil]
    rw [show (' ' :: t) = [' '] ++ t from rfl]
    exact getLast?_append_right ht
  | cons x xs ih =>
    intro t ht
    show (' ' :: (x ++ joinTok (xs ++ [t]))).getLast? = _
    have hne : joinTok (xs ++ [t]) ≠ [] := by
      cases xs with
      | nil => exact joinTok_cons_ne_nil _ _
      | cons y ys => exact joinTok_cons_ne_nil _ _
    rw [show (' ' :: (x ++ joinTok (xs ++ [t]))) = [' '] ++ (x ++ joinTok (xs ++ [t])) from rfl]
    rw [getLast?_append_right (fun hx => hne (List.append_eq_nil.1 hx).2)]
    rw [getLast?_append_right hne, ih t ht]

theorem mem_append_joinTok {c : Char} {a : List Char} {toks : List (List Char)}
    (h : c ∈ a ++ joinTok toks) :
    c ∈ a ∨ c = ' ' ∨ ∃ t ∈ toks, c ∈ t := by
  rcases List.mem_append.1 h with h1 | h1
  · exact Or.inl h1
  · rcases mem_joinTok h1 with h2 | h2
    · exact Or.inr (Or.inl h2)
    · exact Or.inr (Or.inr h2)

theorem words_name_joinTok {vals : List (List Char)}
    (h : ∀ t ∈ vals, t ≠ [] ∧ ∀ c ∈ t, isSpaceChar c = false) :
    words (s2l "Jordan, Emilia" ++ joinTok vals) =
      s2l "Jordan," :: s2l "Emilia" :: vals := by
  have hsplit : s2l "Jordan, Emilia" ++ joinTok vals =
      s2l "Jordan," ++ (' ' :: (s2l "Emilia" ++ joinTok vals)) := by
    rw [show s2l "Jordan, Emilia" = s2l "Jordan," ++ (' ' :: s2l "Emilia") from by decide]
    simp
  rw [hsplit]
  unfold words
  rw [wordsAux_append_noSpace _ _ (by decide)]
  rw [wordsAux_space_cons _ _ (by decide)]
  rw [if_neg (by decide)]
  rw [wordsAux_append_noSpace _ _ (by decide)]
  rw [words_joinTok h ((s2l "Emilia").reverse ++ [])]
  rw [if_neg (by decide)]
  simp

theorem tokenize_name_joinTok {vals : List (List Char)}
    (h : ∀ t ∈ vals, t ≠ [] ∧ (∀ c ∈ t, isSpaceChar c = false) ∧
      (∀ c ∈ t, sanitizeChar c = c) ∧ t ≠ ['*']) :
    tokenizeCompactStatsText (s2l "Jordan, Emilia" ++ joinTok vals) =
      s2l "Jordan," :: s2l "Emilia" :: vals := by
  unfold tokenizeCompactStatsText
  rw [map_eq_self_of (fun c hc => by
    rcases mem_append_joinTok hc with h1 | h1 | ⟨t, ht, hct⟩
    · have hpref : ∀ c ∈ s2l "Jordan, Emilia", sanitizeChar c = c := by decide
      exact hpref c h1
    · subst h1
      decide
    · exact (h t ht).2.2.1 c hct)]
  rw [words_name_joinTok (fun t ht => ⟨(h t ht).1, (h t ht).2.1⟩)]
  rw [List.filter_eq_self.2 (fun t ht => by
    rcases List.mem_cons.1 ht with rfl | ht1
    · decide
    · rcases List.mem_cons.1 ht1 with rfl | ht2
      · decide
      · simpa using (h t ht2).2.2.2)]

theorem extract_16_tokens {vals : List (List Char)} (hlen : vals.length = 16)
    (h : ∀ t ∈ vals, t ≠ [] ∧ trimChars t = t ∧ isCompactValue t = true) :
    extractCompactValueTokens (s2l "Jordan," :: s2l "Emilia" :: vals) =
      some (vals, 16) := by
  have hrev : (s2l "Jordan," :: s2l "Emilia" :: vals).reverse =
      vals.reverse ++ [s2l "Emilia", s2l "Jordan,"] := by
    simp
  have hne : vals ≠ [] := by
    intro hv
    rw [hv] at hlen
    simp at hlen
  have hcollect := @collectCompact_all16 [s2l "Emilia", s2l "Jordan,"]
    vals.reverse [] 0
    (by
      intro hv
      rw [List.reverse_eq_nil_iff] at hv
      exact hne hv)
    (fun t ht => h t (List.mem_reverse.1 ht))
    (by simp [hlen])
  simp only [extractCompactValueTokens]
  rw [hrev, hcollect]
  simp [hlen, hne]

theorem parseCompact_synthetic {vals : List (List Char)} (hlen : vals.length = 16)
    (hshape : ∀ t ∈ vals, (∃ n, t = natDigits n) ∨ (∃ n, t = natDigits n ++ ['%']))
    (pn : List Char → List Char) (teamName : List Char) (j : Option Int) :
    parseCompactPlayerStats pn (s2l "Jordan, Emilia" ++ joinTok vals) teamName j =
      some { team_name := teamName
             player_name := pn (s2l "Jordan, Emilia")
             jersey_number := j
             metrics := buildMetricsFromCompactTokens vals
             total_points := some (parseIntToken (vals.getD 0 []))
             break_points := some (parseIntToken (vals.getD 1 []))
             plus_minus := some (parseIntToken (vals.getD 2 [])) } := by
  have hgood := fun t ht => shape_good (hshape t ht)
  have htok : tokenizeCompactStatsText (s2l "Jordan, Emilia" ++ joinTok vals) =
      s2l "Jordan," :: s2l "Emilia" :: vals :=
    tokenize_name_joinTok (fun t ht => ⟨(hgood t ht).1, (hgood t ht).2.2.2.2.1,
      (hgood t ht).2.2.2.2.2.2, (hgood t ht).2.2.2.1⟩)
  have hex : extractCompactValueTokens (s2l "Jordan," :: s2l "Emilia" :: vals) =
      some (vals, 16) :=
    extract_16_tokens hlen (fun t ht => ⟨(hgood t ht).1, (hgood t ht).2.1,
      (hgood t ht).2.2.1⟩)
  simp only [parseCompactPlayerStats]
  rw [htok, hex]
  dsimp only
  have hplen : (s2l "Jordan," :: s2l "Emilia" :: vals).length - 16 = 2 := by
    simp [hlen]
  rw [hplen]
  rw [show List.take 2 (s2l "Jordan," :: s2l "Emilia" :: vals) =
    [s2l "Jordan,", s2l "Emilia"] from by simp]
  rw [if_neg (show ¬([s2l "Jordan,", s2l "Emilia"] : List (List Char)) = [] from by decide)]
  rw [show trimChars (joinSpace [s2l "Jordan,", s2l "Emilia"]) = s2l "Jordan, Emilia"
    from by decide]
  rw [show cutoffIndex (s2l "Jordan, Emilia") = none from by decide]
  dsimp only
  rw [show stripNamePunct (s2l "Jordan, Emilia") = s2l "Jordan, Emilia" from by decide]
  rw [if_neg (show ¬(s2l "Jordan, Emilia") = [] from by decide)]
  rw [show words (s2l "Jordan, Emilia") = [s2l "Jordan,", s2l "Emilia"] from by decide]
  rw [show ([s2l "Jordan,", s2l "Emilia"] : List (List Char)).filter
      (fun part => ¬ (part.length = 1 ∧ part.all (fun c => c.isAlpha ∧ c.isUpper))) =
    [s2l "Jordan,", s2l "Emilia"] from by decide]
  rw [if_pos (show ([s2l "Jordan,", s2l "Emilia"] : List (List Char)) ≠ [] from by decide)]
  rw [show joinSpace [s2l "Jordan,", s2l "Emilia"] = s2l "Jordan, Emilia" from by decide]

theorem joinTok_ne_nil_of_ne {vals : List (List Char)} (hne : vals ≠ []) :
    joinTok vals ≠ [] := by
  cases hv : vals with
  | nil => exact absurd hv hne
  | cons x xs => exact joinTok_cons_ne_nil x xs

theorem line_getLast_noSpace {vals : List (List Char)} (hne : vals ≠ [])
    (htne : ∀ t ∈ vals, t ≠ [])
    (hsp : ∀ t ∈ vals, ∀ c ∈ t, isSpaceChar c = false) :
    ∀ (a : List Char) (c : Char),
      (a ++ joinTok vals).getLast? = some c → isSpaceChar c = false := by
  intro a c hc
  have hv : vals.dropLast ++ [vals.getLast hne] = vals := List.dropLast_append_getLast hne
  have hj : (joinTok vals).getLast? = (vals.getLast hne).getLast? := by
    conv_lhs => rw [← hv]
    exact getLast?_joinTok _ _ (htne _ (List.getLast_mem hne))
  rw [getLast?_append_right (joinTok_ne_nil_of_ne hne), hj] at hc
  exact getLast?_of_forall (hsp _ (List.getLast_mem hne)) c hc

set_option maxHeartbeats 1600000 in
theorem parseLine_synthetic {vals : List (List Char)} (hlen : vals.length = 16)
    (hshape : ∀ t ∈ vals, (∃ n, t = natDigits n) ∨ (∃ n, t = natDigits n ++ ['%']))
    (pn : List Char → List Char) (teamName : List Char) :
    parsePlayerStatsLine pn (syntheticCompactLine vals) teamName =
      some { team_name := teamName
             player_name := pn (s2l "Jordan, Emilia")
             jersey_number := some 9
             metrics := buildMetricsFromCompactTokens vals
             total_points := some (parseIntToken (vals.getD 0 []))
             break_points := some (parseIntToken (vals.getD 1 []))
             plus_minus := some (parseIntToken (vals.getD 2 [])) } := by
  have hgood := fun t ht => shape_good (hshape t ht)
  have hne : vals ≠ [] := by
    intro hv
    rw [hv] at hlen
    simp at hlen
  have hlast := line_getLast_noSpace hne (fun t ht => (hgood t ht).1)
    (fun t ht => (hgood t ht).2.2.2.2.1)
  have hline : syntheticCompactLine vals =
      '9' :: (' ' :: (s2l "Jordan, Emilia" ++ joinTok vals)) := by
    show s2l "9 Jordan, Emilia" ++ joinTok vals = _
    rw [show s2l "9 Jordan, Emilia" = '9' :: (' ' :: s2l "Jordan, Emilia") from rfl]
    simp
  simp only [parsePlayerStatsLine]
  rw [hline]
  rw [map_eq_self_of (fun c hc => by
    rw [show ('9' :: (' ' :: (s2l "Jordan, Emilia" ++ joinTok vals))) =
      (s2l "9 Jordan, Emilia") ++ joinTok vals from by
        rw [show s2l "9 Jordan, Emilia" = '9' :: (' ' :: s2l "Jordan, Emilia") from rfl]
        simp] at hc
    rcases mem_append_joinTok hc with h1 | h1 | ⟨t, ht, hct⟩
    · have hpref : ∀ c ∈ s2l "9 Jordan, Emilia", (if c = nbsp then ' ' else c) = c := by
        decide
      exact hpref c h1
    · subst h1
      decide
    · rw [if_neg ((hgood t ht).2.2.2.2.2.1 c hct)])]
  rw [trimChars_cons_getLast (by decide) (fun d hd => by
    rw [show ('9' :: (' ' :: (s2l "Jordan, Emilia" ++ joinTok vals))) =
      (s2l "9 Jordan, Emilia") ++ joinTok vals from by
        rw [show s2l "9 Jordan, Emilia" = '9' :: (' ' :: s2l "Jordan, Emilia") from rfl]
        simp] at hd
    exact hlast _ d hd)]
  rw [if_neg (show ¬('9' :: (' ' :: (s2l "Jordan, Emilia" ++ joinTok vals))) = []
    from by simp)]
  rw [if_neg (show ¬((s2l "trainer").isPrefixOf (lowerChars
        ('9' :: (' ' :: (s2l "Jordan, Emilia" ++ joinTok vals)))) = true
      ∨ (s2l "team").isPrefixOf (lowerChars
        ('9' :: (' ' :: (s2l "Jordan, Emilia" ++ joinTok vals)))) = true
      ∨ (s2l "coaches").isPrefixOf (lowerChars
        ('9' :: (' ' :: (s2l "Jordan, Emilia" ++ joinTok vals)))) = true) from by
    simp [lowerChars, List.isPrefixOf, s2l]
    )]
  rw [show List.takeWhile isDigitC ('9' :: (' ' :: (s2l "Jordan, Emilia" ++ joinTok vals)))
      = ['9'] from by
    rw [List.takeWhile_cons, if_pos (by decide), List.takeWhile_cons, if_neg (by decide)]]
  rw [show List.take 3 (['9'] : List Char) = ['9'] from by decide]
  rw [if_neg (show ¬(['9'] : List Char) = [] from by decide)]
  rw [if_neg (show ¬(['9'] : List Char) = [] from by decide)]
  rw [show List.drop (['9'] : List Char).length
      ('9' :: (' ' :: (s2l "Jordan, Emilia" ++ joinTok vals))) =
    ' ' :: (s2l "Jordan, Emilia" ++ joinTok vals) from rfl]
  rw [show trimChars (' ' :: (s2l "Jordan, Emilia" ++ joinTok vals)) =
      s2l "Jordan, Emilia" ++ joinTok vals from by
    unfold trimChars
    rw [trimLeft_space_cons]
    rw [show s2l "Jordan, Emilia" ++ joinTok vals =
      'J' :: (s2l "ordan, Emilia" ++ joinTok vals) from rfl]
    rw [trimLeft_cons_false (by decide)]
    rw [show 'J' :: (s2l "ordan, Emilia" ++ joinTok vals) =
      s2l "Jordan, Emilia" ++ joinTok vals from rfl]
    exact trimRight_eq_self (hlast _)]
  rw [if_neg (show ¬(s2l "Jordan, Emilia" ++ joinTok vals) = [] from by simp [s2l])]
  rw [show decToNat ['9'] = 9 from by decide]
  rw [show (((9 : ℕ) : Int)) = (9 : Int) from rfl]
  rw [parseCompact_synthetic hlen hshape pn teamName (some 9)]

set_option maxHeartbeats 3200000 in
/-- C6: round-trip on well-formed compact lines: a synthetic line built
by formatting 16 values into the compact positional layout (jersey 9,
name `Jordan, Emilia`, then the 16 value tokens) parses to a record that
recovers exactly those 16 values: `total_points`, `break_points`,
`plus_minus` and the 13 metric fields, with the three percentage fields
reproduced verbatim. -/
theorem C6_compact_round_trip
    (pn : List Char → List Char) (teamName : List Char)
    (t0 t1 t2 sa se sp ra re0 pos perf aa ae ab ap apct bp : ℕ) :
    ∃ p : MatchPlayerStats,
      parsePlayerStatsLine pn
        (syntheticCompactLine
          (compactValueTokens16 t0 t1 t2 sa se sp ra re0 pos perf aa ae ab ap apct bp))
        teamName = some p ∧
      p.total_points = some (t0 : Int) ∧
      p.break_points = some (t1 : Int) ∧
      p.plus_minus = some (t2 : Int) ∧
      p.metrics.serves_attempts = (sa : Int) ∧
      p.metrics.serves_errors = (se : Int) ∧
      p.metrics.serves_points = (sp : Int) ∧
      p.metrics.receptions_attempts = (ra : Int) ∧
      p.metrics.receptions_errors = (re0 : Int) ∧
      p.metrics.receptions_positive_pct = natDigits pos ++ ['%'] ∧
      p.metrics.receptions_perfect_pct = natDigits perf ++ ['%'] ∧
      p.metrics.attacks_attempts = (aa : Int) ∧
      p.metrics.attacks_errors = (ae : Int) ∧
      p.metrics.attacks_blocked = (ab : Int) ∧
      p.metrics.attacks_points = (ap : Int) ∧
      p.metrics.attacks_success_pct = natDigits apct ++ ['%'] ∧
      p.metrics.blocks_points = (bp : Int) := by
  have hlen : (compactValueTokens16 t0 t1 t2 sa se sp ra re0 pos perf aa ae ab ap apct
      bp).length = 16 := rfl
  refine ⟨_, parseLine_synthetic hlen
    (compact16_shapes t0 t1 t2 sa se sp ra re0 pos perf aa ae ab ap apct bp) pn teamName,
    ?_, ?_, ?_, ?_, ?_, ?_, ?_, ?_, ?_, ?_, ?_, ?_, ?_, ?_, ?_, ?_⟩
  · show some (parseIntToken (natDigits t0)) = _
    rw [parseIntToken_natDigits]
  · show some (parseIntToken (natDigits t1)) = _
    rw [parseIntToken_natDigits]
  · show some (parseIntToken (natDigits t2)) = _
    rw [parseIntToken_natDigits]
  · show parseIntToken (natDigits sa) = _
    exact parseIntToken_natDigits sa
  · show parseIntToken (natDigits se) = _
    exact parseIntToken_natDigits se
  · show parseIntToken (natDigits sp) = _
    exact parseIntToken_natDigits sp
  · show parseIntToken (natDigits ra) = _
    exact parseIntToken_natDigits ra
  · show parseIntToken (natDigits re0) = _
    exact parseIntToken_natDigits re0
  · show parsePercentageToken (natDigits pos ++ ['%']) = _
    exact parsePercentageToken_natDigits pos
  · show parsePercentageToken (natDigits perf ++ ['%']) = _
    exact parsePercentageToken_natDigits perf
  · show parseIntToken (natDigits aa) = _
    exact parseIntToken_natDigits aa
  · show parseIntToken (natDigits ae) = _
    exact parseIntToken_natDigits ae
  · show parseIntToken (natDigits ab) = _
    exact parseIntToken_natDigits ab
  · show parseIntToken (natDigits ap) = _
    exact parseIntToken_natDigits ap
  · show parsePercentageToken (natDigits apct ++ ['%']) = _
    exact parsePercentageToken_natDigits apct
  · show parseIntToken (natDigits bp) = _
    exact parseIntToken_natDigits bp

end Scouting
